import Mathlib

/-!
# Verification of the nb_vite SSR dev bridge, component annotator and router watcher

Shallow embedding of the core runtime behavior of the `nb_vite` Vite
integration:

* the SSR render endpoint and its render-function cache
  (`setupSSREndpoint` / `loadRenderFunction` in the plugin source),
* the file-change cache-invalidation handler,
* the component annotator (`transformReactComponent`,
  `transformFunctionBody`, `addAttributeToJSXElement`,
  `transformVueComponent` in `vite-plugin-component-path.js`),
* the router-change watcher (`vite-plugin-nb-routes.ts`): its
  debounce/mutual-exclusion state machine and its glob matcher.

JavaScript strings are modeled as `String` (or `List Char` where textual
splicing matters), JSON values as an inductive `Json`, thrown JavaScript
values as `JsError`, and the cooperative event loop as explicit state
passing / step functions.
-/

namespace NbVite

/-! ## JSON values

Result of `JSON.parse` on a request body, and the values the endpoint
serializes with `JSON.stringify`.  Numbers are modeled as integers
(no claim depends on float behavior). -/

inductive Json where
  | null
  | bool (b : Bool)
  | num (n : Int)
  | str (s : String)
  | arr (elems : List Json)
  | obj (fields : List (String × Json))
deriving Repr

/-! ## Thrown JavaScript values

The endpoint's `catch` block distinguishes `error instanceof Error`
(which has `.message` and `.stack`) from any other thrown value
(serialized via `String(error)`).  `Error.stack` is optional in the
TypeScript type, hence `Option String`. -/

inductive JsError where
  /-- A thrown `Error` object: carries `message` and (optionally) `stack`. -/
  | errorObj (message : String) (stack : Option String)
  /-- Any other thrown value, represented by its `String(error)` form. -/
  | other (stringForm : String)
deriving Repr, DecidableEq

/-- `error instanceof Error ? error.message : String(error)` -/
def JsError.messageOf : JsError → String
  | .errorObj m _ => m
  | .other s => s

/-- `error instanceof Error ? error.stack : undefined` -/
def JsError.stackOf : JsError → Option String
  | .errorObj _ st => st
  | .other _ => none

/-! ## SSR render bridge (`setupSSREndpoint`) -/

/-- A render function as cached by the bridge: invoked with the parsed
page descriptor, it either resolves to a JSON-serializable result or
rejects. -/
def RenderFn : Type := Json → Except JsError Json

/-- The `render` export of the imported SSR entry module:
either callable, or present but not a function
(`typeof ssrModule.render !== 'function'`). -/
inductive RenderExport where
  | callable (f : RenderFn)
  | notCallable

/-- The SSR entry module as seen by
`runner.import(ssrEntryPath) as { render?: ... }`. -/
structure SSRModule where
  render : Option RenderExport

/-- Message of the error thrown when the entry lacks a callable `render`
export: `new Error('SSR entry must export a "render" function')`. -/
def missingRenderMessage : String := "SSR entry must export a \"render\" function"

/-- The `Error` thrown by `loadRenderFunction` when the render export is
absent or not callable.  A constructed `Error` carries a stack trace;
its exact text is runtime-dependent, modeled here by a fixed string. -/
def missingRenderError : JsError :=
  .errorObj missingRenderMessage (some ("Error: " ++ missingRenderMessage))

/--
`loadRenderFunction` from `setupSSREndpoint`:

```
if (!cachedRender) {
  ... invalidate module graph, clear runner cache ...
  const ssrModule = await runner.import(ssrEntryPath)
  if (!ssrModule.render || typeof ssrModule.render !== 'function') {
    throw new Error('SSR entry must export a "render" function');
  }
  cachedRender = ssrModule.render;
}
return cachedRender;
```

The import itself may also reject (`importOutcome = .error e`).  The
result pairs the function returned (or the propagated error) with the
value of the `cachedRender` slot after the call: the slot is assigned
only after the callable check succeeds, so a failing load leaves it
exactly as it was.
-/
def loadRenderFunction (cachedRender : Option RenderFn)
    (importOutcome : Except JsError SSRModule) :
    Except JsError RenderFn × Option RenderFn :=
  match cachedRender with
  | some f => (.ok f, some f)
  | none =>
    match importOutcome with
    | .error e => (.error e, none)
    | .ok m =>
      match m.render with
      | some (.callable f) => (.ok f, some f)
      | some .notCallable => (.error missingRenderError, none)
      | none => (.error missingRenderError, none)

/-- HTTP method of an incoming request. -/
inductive Method where
  | GET
  | POST
  | OPTIONS
  | otherMethod (name : String)
deriving Repr, DecidableEq

/-- An incoming request as inspected by the middlewares:
`req.url` and `req.method`. -/
structure Request where
  url : String
  method : Method
deriving Repr, DecidableEq

/-- The two configured endpoint paths (`ssrConfig.path`,
`ssrConfig.healthPath`). -/
structure SSRConfig where
  path : String
  healthPath : String
deriving Repr, DecidableEq

/-- Body written by a middleware response (`res.end(...)` argument).
JSON bodies are written with `JSON.stringify`; note `stringify` drops
object fields whose value is `undefined`. -/
inductive RespBody where
  | jsonBody (j : Json)
  | textBody (s : String)
  | emptyBody
deriving Repr

/-- A response: status code (200 unless `res.statusCode` was assigned)
and body.  (CORS/content-type headers are not modeled; no claim
mentions them.) -/
structure Response where
  status : Nat
  body : RespBody
deriving Repr

/-- `JSON.stringify({success: true, result})` -/
def successBody (result : Json) : Json :=
  .obj [("success", .bool true), ("result", result)]

/-- `JSON.stringify({success: false, error: {message, stack}})`;
`stack` is `undefined` for non-`Error` throwables and is then dropped
by `stringify`. -/
def errorBody (e : JsError) : Json :=
  .obj [("success", .bool false),
        ("error", .obj (("message", .str e.messageOf) ::
          (match e.stackOf with
           | some st => [("stack", .str st)]
           | none => [])))]

/-- The `500` response produced by the `catch` block of the render
endpoint. -/
def errorResponse (e : JsError) : Response :=
  { status := 500, body := .jsonBody (errorBody e) }

/-- The environment a single POST request executes in: the outcome of
`await readBody(req)` followed by `JSON.parse(body)` (either the parsed
page descriptor or the first exception thrown by body reading / JSON
parsing), and the outcome of `await runner.import(ssrEntryPath)` should
a load be attempted. -/
structure RenderWorld where
  pageOutcome : Except JsError Json
  importOutcome : Except JsError SSRModule

/-- The property access performed by
``console.log(`[nb-vite:ssr] Rendering page: ${page.component}`)``:
reading `.component` throws a `TypeError` when the parsed JSON value is
`null`; for every other JSON value it yields a value (possibly
`undefined`) without throwing. -/
def pageComponentAccess : Json → Except JsError Unit
  | .null => .error (.errorObj "Cannot read properties of null (reading 'component')"
      (some "TypeError: Cannot read properties of null (reading 'component')"))
  | _ => .ok ()

/--
The `POST` branch of the render endpoint (the `try`/`catch` at the end
of `setupSSREndpoint`).  Returns the response written, the value of the
`cachedRender` slot afterwards, and — as an observation of the render
call — the page descriptor the render function was invoked with (if it
was invoked at all).
-/
def handleRenderPost (cachedRender : Option RenderFn) (w : RenderWorld) :
    Response × Option RenderFn × Option Json :=
  match w.pageOutcome with
  | .error e => (errorResponse e, cachedRender, none)
  | .ok page =>
    match pageComponentAccess page with
    | .error e => (errorResponse e, cachedRender, none)
    | .ok _ =>
      match loadRenderFunction cachedRender w.importOutcome with
      | (.error e, newCache) => (errorResponse e, newCache, none)
      | (.ok render, newCache) =>
        match render page with
        | .error e => (errorResponse e, newCache, some page)
        | .ok result =>
          ({ status := 200, body := .jsonBody (successBody result) }, newCache, some page)

/-- Result of running one middleware on a request: either it called
`next()` (leaving all bridge state alone), or it wrote a response. -/
structure MiddlewareResult where
  /-- `none` means the middleware called `next()`. -/
  response : Option Response
  /-- `cachedRender` slot after the middleware ran. -/
  cache : Option RenderFn
  /-- Page descriptor passed to the render function, when it was invoked. -/
  renderedPage : Option Json

/--
The render middleware:

```
if (req.url !== ssrConfig.path) return next();
... CORS headers ...
if (req.method === 'OPTIONS') { res.statusCode = 200; res.end(); return; }
if (req.method !== 'POST') { res.statusCode = 405; res.end('Method not allowed'); return; }
try { ... } catch (error) { ... 500 ... }
```
-/
def renderMiddleware (cfg : SSRConfig) (cachedRender : Option RenderFn)
    (w : RenderWorld) (req : Request) : MiddlewareResult :=
  if req.url ≠ cfg.path then
    { response := none, cache := cachedRender, renderedPage := none }
  else if req.method = .OPTIONS then
    { response := some { status := 200, body := .emptyBody },
      cache := cachedRender, renderedPage := none }
  else if req.method ≠ .POST then
    { response := some { status := 405, body := .textBody "Method not allowed" },
      cache := cachedRender, renderedPage := none }
  else
    let (resp, c, p) := handleRenderPost cachedRender w
    { response := some resp, cache := c, renderedPage := p }

/-- `JSON.stringify({status: 'ok', ready: !!cachedRender, mode: 'vite-plugin'})` -/
def healthJson (ready : Bool) : Json :=
  .obj [("status", .str "ok"), ("ready", .bool ready), ("mode", .str "vite-plugin")]

/--
The health middleware:

```
if (req.url === ssrConfig.healthPath && req.method === 'GET') {
  ... res.end(JSON.stringify({status: 'ok', ready: !!cachedRender, mode: 'vite-plugin'})); return;
}
next();
```

Returns the response, or `none` when it fell through to `next()`.
-/
def healthMiddleware (cfg : SSRConfig) (cachedRender : Option RenderFn)
    (req : Request) : Option Response :=
  if req.url = cfg.healthPath ∧ req.method = .GET then
    some { status := 200, body := .jsonBody (healthJson cachedRender.isSome) }
  else
    none

/-! ## File-change cache invalidation (`viteServer.watcher.on('change', ...)`) -/

/-- `a.endsWith(b)` on character lists. -/
def endsWithL (s suf : List Char) : Bool :=
  suf.isSuffixOf s

/-- `file.match(/\.(tsx?|jsx?)$/)` — the recognized script extensions:
the anchored alternation holds exactly when the path ends in `.ts`,
`.tsx`, `.js` or `.jsx`. -/
def hasScriptExtension (file : String) : Bool :=
  endsWithL file.data ".ts".data || endsWithL file.data ".tsx".data ||
    endsWithL file.data ".js".data || endsWithL file.data ".jsx".data

/-- `str.split(sep)` for a one-character separator. -/
def splitOnChar (sep : Char) : List Char → List (List Char)
  | [] => [[]]
  | c :: rest =>
      match splitOnChar sep rest with
      | g :: gs => if c = sep then [] :: g :: gs else (c :: g) :: gs
      | [] => [[c]]

/-- `file.split('/').pop() || ''` — the changed file's basename. -/
def basenameOf (file : String) : List Char :=
  (splitOnChar '/' file.data).getLastD []

/-- Side effects of one file-change event on the bridge's external
collaborators: which file had its module-graph nodes invalidated, and
whether `runner.clearCache()` was called. -/
structure ChangeEffects where
  invalidatedModulesOf : Option String
  clearedRunnerCache : Bool
deriving Repr, DecidableEq

/-- No side effects. -/
def noEffects : ChangeEffects := { invalidatedModulesOf := none, clearedRunnerCache := false }

/--
The watcher `change` handler of `setupSSREndpoint`:

```
const jsDir = path.resolve(viteServer.config.root, "./js");
if (!file.startsWith(jsDir) || !file.match(/\.(tsx?|jsx?)$/)) return;
const fileName = file.split('/').pop() || '';
if (fileName === 'routes.js' || fileName === 'routes.d.ts') { ...log...; return; }
... invalidate module graph nodes of `file`, runner.clearCache(), cachedRender = null
```

`root` is the absolute project root, so `path.resolve(root, "./js")` is
`root ++ "/js"`.  Returns the effects performed and the `cachedRender`
slot afterwards.
-/
def onFileChange (root : String) (cachedRender : Option RenderFn) (file : String) :
    ChangeEffects × Option RenderFn :=
  let jsDir := (root ++ "/js").data
  if ¬ (jsDir.isPrefixOf file.data && hasScriptExtension file) then
    (noEffects, cachedRender)
  else if basenameOf file = "routes.js".data ∨ basenameOf file = "routes.d.ts".data then
    (noEffects, cachedRender)
  else
    ({ invalidatedModulesOf := some file, clearedRunnerCache := true }, none)

end NbVite

namespace NbVite

/-! ## Router-change watcher (`vite-plugin-nb-routes.ts`)

State machine of `regenerateRoutes` / `debouncedRegenerate`:

```
let isRegenerating = false;
let debounceTimer: NodeJS.Timeout | null = null;

function regenerateRoutes() {
  if (isRegenerating) { ...log "skipping"...; return; }
  isRegenerating = true;
  const child = spawn(cmd, args, spawnOptions);
  child.on('close', (code) => { isRegenerating = false; ... });
  child.on('error', (err) => { isRegenerating = false; ... });
}

function debouncedRegenerate() {
  if (debounceTimer) clearTimeout(debounceTimer);
  debounceTimer = setTimeout(() => { regenerateRoutes(); debounceTimer = null; }, opts.debounce);
}
```

Timers are modeled by identifiers: `setTimeout` hands out a fresh id,
`clearTimeout` discards the stored one, and only the currently stored
timer can fire.  `runningCommands` counts spawned regeneration commands
whose `close`/`error` callback has not yet run — it is the observable
the mutual-exclusion claim is about.
-/

structure RouterWatchState where
  isRegenerating : Bool
  debounceTimer : Option Nat
  /-- Source of fresh `setTimeout` identifiers. -/
  nextTimerId : Nat
  /-- Number of spawned regeneration commands still running. -/
  runningCommands : Nat
deriving Repr, DecidableEq

/-- Events the watcher's closures react to. -/
inductive RouterEvent where
  /-- A watcher `change` event on a path matching the router patterns
  (the `matchesRouterPattern` guard passed): runs `debouncedRegenerate`. -/
  | matchingChange
  /-- The pending debounce timer with this id fires: runs
  `regenerateRoutes()` and then clears `debounceTimer`. -/
  | timerFire (id : Nat)
  /-- The running command's `close` or `error` callback runs. -/
  | commandExit
deriving Repr, DecidableEq

/-- Initial state: plugin just installed. -/
def initialRouterState : RouterWatchState :=
  { isRegenerating := false, debounceTimer := none, nextTimerId := 0, runningCommands := 0 }

/-- One event-loop turn of the watcher.  `none` marks an event that
cannot occur in that state (a cleared timer firing, or an exit callback
with no running command). -/
def routerStep (s : RouterWatchState) : RouterEvent → Option RouterWatchState
  | .matchingChange =>
    -- debouncedRegenerate: clearTimeout of any pending timer, then a fresh setTimeout
    some { s with debounceTimer := some s.nextTimerId, nextTimerId := s.nextTimerId + 1 }
  | .timerFire id =>
    if s.debounceTimer = some id then
      if s.isRegenerating then
        -- regenerateRoutes: "Regeneration already in progress, skipping..."
        some { s with debounceTimer := none }
      else
        -- regenerateRoutes: isRegenerating = true; spawn(...)
        some { s with isRegenerating := true, debounceTimer := none,
                      runningCommands := s.runningCommands + 1 }
    else
      none
  | .commandExit =>
    match s.runningCommands with
    | 0 => none
    | n + 1 =>
      -- child.on('close'/'error'): isRegenerating = false
      some { s with isRegenerating := false, runningCommands := n }

/-- States reachable from plugin installation by event-loop turns. -/
inductive RouterReachable : RouterWatchState → Prop where
  | init : RouterReachable initialRouterState
  | step {s s' : RouterWatchState} {e : RouterEvent} :
      RouterReachable s → routerStep s e = some s' → RouterReachable s'

/-! ## The glob matcher (`matchesRouterPattern`)

```
const regex = pattern
  .replace(/\./g, '\\.')
  .replace(/\*\*/g, '.*')
  .replace(/\*/g, '[^/]*');
return new RegExp(`^${regex}$`).test(filePath);
```

The three `replace` calls are literal, global, leftmost, non-overlapping
rewrites on the pattern text (each works on the *output* of the previous
one).  The produced regular expression is built from literal characters,
escaped characters, `.`, the class `[^/]` and postfix `*`; it is parsed
into that atom language and matched anchored at both ends.
-/

/-- `.replace(/\./g, '\\.')` -/
def escapeDots : List Char → List Char
  | [] => []
  | '.' :: rest => '\\' :: '.' :: escapeDots rest
  | c :: rest => c :: escapeDots rest

/-- `.replace(/\*\*/g, '.*')` — leftmost, non-overlapping; scanning
resumes after the replacement text, which is not itself rescanned. -/
def replaceDoubleStar : List Char → List Char
  | '*' :: '*' :: rest => '.' :: '*' :: replaceDoubleStar rest
  | c :: rest => c :: replaceDoubleStar rest
  | [] => []

/-- `.replace(/\*/g, '[^/]*')` -/
def replaceSingleStar : List Char → List Char
  | '*' :: rest => '[' :: '^' :: '/' :: ']' :: '*' :: replaceSingleStar rest
  | c :: rest => c :: replaceSingleStar rest
  | [] => []

/-- One atom of the produced regular expressions. -/
inductive RegexAtom where
  /-- A literal character (possibly written escaped). -/
  | lit (c : Char)
  /-- `.` — any character except a line terminator. -/
  | anyChar
  /-- `[^/]` — any character except `/`. -/
  | nonSlash
deriving Repr, DecidableEq

/-- An atom, optionally under a postfix `*`. -/
inductive RegexPiece where
  | once (a : RegexAtom)
  | star (a : RegexAtom)
deriving Repr, DecidableEq

/-- Characters that are regex metacharacters: a pattern producing one of
these outside the forms generated above is not in the modeled fragment
(`parseRegexChars` refuses it). -/
def isRegexMeta (c : Char) : Bool :=
  c = '*' || c = '+' || c = '?' || c = '(' || c = ')' || c = '[' || c = ']' ||
  c = '{' || c = '}' || c = '|' || c = '^' || c = '$' || c = '.' || c = '\\'

/-- Parse the produced regex text into pieces: an atom (escaped
character, `.`, the class `[^/]`, or a plain literal) followed by an
optional `*` quantifier. -/
def parseRegexChars : List Char → Option (List RegexPiece)
  | [] => some []
  | '\\' :: c :: '*' :: rest => (parseRegexChars rest).map (RegexPiece.star (.lit c) :: ·)
  | '\\' :: c :: rest => (parseRegexChars rest).map (RegexPiece.once (.lit c) :: ·)
  | ['\\'] => none
  | '[' :: '^' :: '/' :: ']' :: '*' :: rest =>
      (parseRegexChars rest).map (RegexPiece.star .nonSlash :: ·)
  | '[' :: '^' :: '/' :: ']' :: rest =>
      (parseRegexChars rest).map (RegexPiece.once .nonSlash :: ·)
  | '.' :: '*' :: rest => (parseRegexChars rest).map (RegexPiece.star .anyChar :: ·)
  | '.' :: rest => (parseRegexChars rest).map (RegexPiece.once .anyChar :: ·)
  | c :: '*' :: rest =>
      if isRegexMeta c then none
      else (parseRegexChars rest).map (RegexPiece.star (.lit c) :: ·)
  | c :: rest =>
      if isRegexMeta c then none
      else (parseRegexChars rest).map (RegexPiece.once (.lit c) :: ·)

/-- Whether an atom matches one character (JavaScript semantics: `.`
does not match line terminators). -/
def atomMatches : RegexAtom → Char → Bool
  | .lit c', c => c = c'
  | .anyChar, c => ¬ (c = '\n' ∨ c = '\r')
  | .nonSlash, c => c ≠ '/'

/-- Anchored match (`^...$`) of a piece list against the whole input,
with backtracking for `*`.  `fuel` only pays for the termination
argument: every recursive call strictly decreases `ps.length +
s.length`, so the fuel `piecesMatch` supplies is never exhausted. -/
def piecesMatchFuel : Nat → List RegexPiece → List Char → Bool
  | 0, _, _ => false
  | _ + 1, [], [] => true
  | _ + 1, [], _ :: _ => false
  | _ + 1, .once _ :: _, [] => false
  | fuel + 1, .once a :: ps, c :: cs => atomMatches a c && piecesMatchFuel fuel ps cs
  | fuel + 1, .star _ :: ps, [] => piecesMatchFuel fuel ps []
  | fuel + 1, .star a :: ps, c :: cs =>
      piecesMatchFuel fuel ps (c :: cs) ||
        (atomMatches a c && piecesMatchFuel fuel (.star a :: ps) cs)

/-- `new RegExp(`^${regex}$`).test(filePath)` for a parsed piece list. -/
def piecesMatch (ps : List RegexPiece) (s : List Char) : Bool :=
  piecesMatchFuel (ps.length + s.length + 1) ps s

/--
`matchesRouterPattern` of `vite-plugin-nb-routes.ts`: test the changed
file's project-relative path against each configured pattern with the
glob-to-regex translation above.  (A produced regex outside the parsed
fragment cannot arise from the plugin's default patterns; it is mapped
to `false` here.)
-/
def matchesRouterPattern (patterns : List String) (filePath : String) : Bool :=
  patterns.any fun pattern =>
    let regex := replaceSingleStar (replaceDoubleStar (escapeDots pattern.data))
    match parseRegexChars regex with
    | some pieces => piecesMatch pieces filePath.data
    | none => false

/-! ### The glob semantics the spec describes

Modelled from the spec: "glob syntax reduced to `*` → "no path
separator" and `**` → "any sequence," both anchored at start/end of the
full relative path."  This is the *specified* matcher, written from the
spec's words and used only to compare against the implementation above.
-/

/-- A pattern piece under the spec's glob semantics. -/
inductive GlobPiece where
  | lit (c : Char)
  /-- `*`: any sequence of characters containing no path separator. -/
  | anyNoSep
  /-- `**`: any sequence of characters. -/
  | anySeq
deriving Repr, DecidableEq

/-- Read a glob pattern into pieces (`**` before `*`). -/
def globPieces : List Char → List GlobPiece
  | '*' :: '*' :: rest => .anySeq :: globPieces rest
  | '*' :: rest => .anyNoSep :: globPieces rest
  | c :: rest => .lit c :: globPieces rest
  | [] => []

/-- Anchored matching under the spec's glob semantics (fuel as in
`piecesMatchFuel`: every call decreases `ps.length + s.length`). -/
def globMatchFuel : Nat → List GlobPiece → List Char → Bool
  | 0, _, _ => false
  | _ + 1, [], [] => true
  | _ + 1, [], _ :: _ => false
  | _ + 1, .lit _ :: _, [] => false
  | fuel + 1, .lit c' :: ps, c :: cs => c = c' && globMatchFuel fuel ps cs
  | fuel + 1, .anyNoSep :: ps, [] => globMatchFuel fuel ps []
  | fuel + 1, .anyNoSep :: ps, c :: cs =>
      globMatchFuel fuel ps (c :: cs) || (c ≠ '/' && globMatchFuel fuel (.anyNoSep :: ps) cs)
  | fuel + 1, .anySeq :: ps, [] => globMatchFuel fuel ps []
  | fuel + 1, .anySeq :: ps, c :: cs =>
      globMatchFuel fuel ps (c :: cs) || globMatchFuel fuel (.anySeq :: ps) cs

/-- Anchored matching under the spec's glob semantics. -/
def globMatch (ps : List GlobPiece) (s : List Char) : Bool :=
  globMatchFuel (ps.length + s.length + 1) ps s

/-- Modelled from the spec: the pattern-match test §4.3 describes —
`*` matches any separator-free sequence, `**` any sequence, anchored at
both ends of the full relative path. -/
def specGlobTest (pattern filePath : String) : Bool :=
  globMatch (globPieces pattern.data) filePath.data

end NbVite

namespace NbVite

/-! ## Component annotator (`vite-plugin-component-path.js`), React path

The Babel AST fragment the transform inspects, with explicit mutual
list types so that all functions are structurally recursive (and hence
evaluate definitionally on concrete inputs).

JSX attribute values are modeled as string literals — the only kind the
transform creates (`t.stringLiteral`) or inspects (`attr.name.name`).
`otherExpr` stands for any other expression kind, keeping the
subexpressions Babel's traversal would descend into.
-/

/-- A JSX attribute on an opening element: either a named attribute
(`JSXAttribute` with a `JSXIdentifier` name) or a spread attribute
(for which `t.isJSXAttribute` is false). -/
inductive JSXAttrNode where
  | named (name : String) (value : String)
  | spread
deriving Repr, DecidableEq

mutual

inductive JExpr where
  /-- `JSXElement`: opening-element attributes and children. -/
  | jsxElement (attrs : List JSXAttrNode) (children : JExprList)
  /-- `JSXFragment`. -/
  | jsxFragment (children : JExprList)
  /-- `ArrowFunctionExpression` whose body is an expression. -/
  | arrowExpr (body : JExpr)
  /-- `ArrowFunctionExpression` whose body is a block. -/
  | arrowBlock (body : JStmtList)
  /-- `FunctionExpression` (always block-bodied). -/
  | funExpr (body : JStmtList)
  /-- `Identifier` reference. -/
  | identRef (name : String)
  /-- Any other expression, with the subexpressions traversal descends into. -/
  | otherExpr (subExprs : JExprList)

inductive JExprList where
  | nil
  | cons (head : JExpr) (tail : JExprList)

inductive JStmt where
  /-- `ReturnStatement` with optional argument. -/
  | ret (arg : Option JExpr)
  /-- `ExpressionStatement`. -/
  | exprStmt (e : JExpr)
  /-- `IfStatement`: test, consequent block, alternate block. -/
  | ifStmt (test : JExpr) (thenBranch : JStmtList) (elseBranch : JStmtList)

inductive JStmtList where
  | nil
  | cons (head : JStmt) (tail : JStmtList)

end

/-- The attribute name the plugin injects. -/
def dataAttrName : String := "data-nb-component"

/-- `t.isJSXElement(node)` -/
def isJsxElementB : JExpr → Bool
  | .jsxElement _ _ => true
  | _ => false

/-- `t.isJSXFragment(node)` -/
def isJsxFragmentB : JExpr → Bool
  | .jsxFragment _ => true
  | _ => false

/-- `openingElement.attributes.some(attr => t.isJSXAttribute(attr) &&
t.isJSXIdentifier(attr.name) && attr.name.name === 'data-nb-component')` -/
def hasDataAttr : List JSXAttrNode → Bool
  | [] => false
  | .named n _ :: rest => n = dataAttrName || hasDataAttr rest
  | .spread :: rest => hasDataAttr rest

/--
`addAttributeToJSXElement`: on a JSX element, skip if the attribute is
already present, otherwise `unshift` the new
`data-nb-component="<value>"` attribute.  (The source only ever calls it
with a JSX element; other node kinds are returned unchanged.)
-/
def addAttributeToJSXElement (value : String) : JExpr → JExpr
  | .jsxElement attrs children =>
      if hasDataAttr attrs then .jsxElement attrs children
      else .jsxElement (.named dataAttrName value :: attrs) children
  | e => e

/-- What stopped a `transformFunctionBody` traversal
(`path.stop()` sites). -/
inductive VisitOutcome where
  /-- A returned JSX element (or a nested arrow's JSX body) was found and
  `addAttributeToJSXElement` was called on it. -/
  | attributed
  /-- The first return found carried a `JSXFragment`: "Can't add
  attributes to fragments, skip". -/
  | fragmentSkip
deriving Repr, DecidableEq

mutual

/--
The traversal of `transformFunctionBody`, at one visited node.  Babel's
`traverse(func, visitors)` fires visitors on every *descendant* of
`func` in depth-first pre-order; `path.stop()` aborts the whole
traversal.  `visitExpr e` fires the visitors on `e` itself and then on
its descendants, returning the rewritten node and the outcome that
stopped the traversal, if any:

* `ReturnStatement` visitor: a JSX-element argument is annotated and
  the traversal stops; a fragment argument stops it without change;
  anything else falls through to the argument's descendants.
* `ArrowFunctionExpression` visitor: an arrow whose body is directly a
  JSX element gets that body annotated, stopping the traversal.
-/
def visitExpr (value : String) : JExpr → JExpr × Option VisitOutcome
  | .jsxElement attrs children =>
      match visitExprList value children with
      | (cs, o) => (.jsxElement attrs cs, o)
  | .jsxFragment children =>
      match visitExprList value children with
      | (cs, o) => (.jsxFragment cs, o)
  | .arrowExpr body =>
      if isJsxElementB body then
        (.arrowExpr (addAttributeToJSXElement value body), some .attributed)
      else
        match visitExpr value body with
        | (b, o) => (.arrowExpr b, o)
  | .arrowBlock body =>
      match visitStmtList value body with
      | (ss, o) => (.arrowBlock ss, o)
  | .funExpr body =>
      match visitStmtList value body with
      | (ss, o) => (.funExpr ss, o)
  | .identRef n => (.identRef n, none)
  | .otherExpr subs =>
      match visitExprList value subs with
      | (cs, o) => (.otherExpr cs, o)

/-- Visit the elements of an expression list in order, stopping at the
first `path.stop()`. -/
def visitExprList (value : String) : JExprList → JExprList × Option VisitOutcome
  | .nil => (.nil, none)
  | .cons e rest =>
      match visitExpr value e with
      | (e', some o) => (.cons e' rest, some o)
      | (e', none) =>
          match visitExprList value rest with
          | (rest', o) => (.cons e' rest', o)

/-- Visit one statement (the `ReturnStatement` visitor fires here). -/
def visitStmt (value : String) : JStmt → JStmt × Option VisitOutcome
  | .ret none => (.ret none, none)
  | .ret (some e) =>
      if isJsxElementB e then
        (.ret (some (addAttributeToJSXElement value e)), some .attributed)
      else if isJsxFragmentB e then
        (.ret (some e), some .fragmentSkip)
      else
        match visitExpr value e with
        | (e', o) => (.ret (some e'), o)
  | .exprStmt e =>
      match visitExpr value e with
      | (e', o) => (.exprStmt e', o)
  | .ifStmt test thenBranch elseBranch =>
      match visitExpr value test with
      | (t', some o) => (.ifStmt t' thenBranch elseBranch, some o)
      | (t', none) =>
          match visitStmtList value thenBranch with
          | (thn', some o) => (.ifStmt t' thn' elseBranch, some o)
          | (thn', none) =>
              match visitStmtList value elseBranch with
              | (els', o) => (.ifStmt t' thn' els', o)

/-- Visit the statements of a block in order, stopping at the first
`path.stop()`. -/
def visitStmtList (value : String) : JStmtList → JStmtList × Option VisitOutcome
  | .nil => (.nil, none)
  | .cons s rest =>
      match visitStmt value s with
      | (s', some o) => (.cons s' rest, some o)
      | (s', none) =>
          match visitStmtList value rest with
          | (rest', o) => (.cons s' rest', o)

end

/--
`transformFunctionBody(func, componentPath)`: traverse the descendants
of a function-valued node.  For a block-bodied function the visited
descendants are the block's statements; for an expression-bodied arrow
they are the body expression and its descendants (the root `func` node
itself is not visited by Babel's `traverse`).
-/
def transformFunctionBody (value : String) : JExpr → JExpr
  | .arrowExpr body => .arrowExpr (visitExpr value body).1
  | .arrowBlock body => .arrowBlock (visitStmtList value body).1
  | .funExpr body => .funExpr (visitStmtList value body).1
  | e => e

end NbVite

namespace NbVite

/-! ### Module level: the two top-level visitors of `transformReactComponent`

The module is the ordered list of top-level items Babel's traversal
walks.  Scope analysis (`path.scope.getBinding`, `referencePaths`) is
modeled over this top-level structure: a `const`/`let`/`var` declarator
binds its name at module scope, and a reference path lying inside an
`ExportDefaultDeclaration` is an occurrence of the bound identifier
inside one of the export-default items.
-/

/-- A top-level item of the component module. -/
inductive TopLevel where
  /-- `const name = init;` — one `VariableDeclarator`. -/
  | varDecl (name : String) (init : Option JExpr)
  /-- `export default function f() { ... }` (a `FunctionDeclaration`). -/
  | exportDefaultFun (body : JStmtList)
  /-- `export default <expression>;` -/
  | exportDefaultExpr (e : JExpr)
  /-- Any other top-level statement (imports, other exports, ...). -/
  | otherTop

/-- A parsed component module. -/
abbrev JModule := List TopLevel

mutual

/-- Does the expression contain an `Identifier` reference to `n`? -/
def exprMentions (n : String) : JExpr → Bool
  | .identRef m => m = n
  | .jsxElement _ cs => exprListMentions n cs
  | .jsxFragment cs => exprListMentions n cs
  | .arrowExpr b => exprMentions n b
  | .arrowBlock ss => stmtListMentions n ss
  | .funExpr ss => stmtListMentions n ss
  | .otherExpr cs => exprListMentions n cs

def exprListMentions (n : String) : JExprList → Bool
  | .nil => false
  | .cons e rest => exprMentions n e || exprListMentions n rest

def stmtMentions (n : String) : JStmt → Bool
  | .ret none => false
  | .ret (some e) => exprMentions n e
  | .exprStmt e => exprMentions n e
  | .ifStmt t a b => exprMentions n t || stmtListMentions n a || stmtListMentions n b

def stmtListMentions (n : String) : JStmtList → Bool
  | .nil => false
  | .cons s rest => stmtMentions n s || stmtListMentions n rest

end

/-- `binding.referencePaths.some(ref => ref.findParent(p =>
p.isExportDefaultDeclaration()))`: some reference to `n` lies inside an
export-default item. -/
def referencedInExportDefault (m : JModule) (n : String) : Bool :=
  m.any fun t =>
    match t with
    | .exportDefaultFun body => stmtListMentions n body
    | .exportDefaultExpr e => exprMentions n e
    | _ => false

/-- `t.isFunctionExpression(init) || t.isArrowFunctionExpression(init)` -/
def isFunctionValued : Option JExpr → Bool
  | some (.arrowExpr _) => true
  | some (.arrowBlock _) => true
  | some (.funExpr _) => true
  | _ => false

/-- `path.scope.getBinding(name)` resolved to its `VariableDeclarator`:
index of the first top-level declarator of `name`. -/
def findBindingIdx (m : JModule) (n : String) : Option Nat :=
  match m with
  | [] => none
  | .varDecl nm _ :: rest =>
      if nm = n then some 0 else (findBindingIdx rest n).map (· + 1)
  | _ :: rest => (findBindingIdx rest n).map (· + 1)

/-- Replace an element of a list by applying `f` at index `i`. -/
def modifyAt (f : TopLevel → TopLevel) : Nat → JModule → JModule
  | _, [] => []
  | 0, t :: rest => f t :: rest
  | i + 1, t :: rest => t :: modifyAt f i rest

/-- `transformFunctionBody(binding.path.node.init, ...)` applied to a
declarator's initializer (mutation in place of the binding's node). -/
def updateVarInit (value : String) : TopLevel → TopLevel
  | .varDecl nm (some e) => .varDecl nm (some (transformFunctionBody value e))
  | t => t

/--
One visit of the module traversal at index `i` — the two visitors of
`transformReactComponent`, fired on the item visited:

* `ExportDefaultDeclaration`: a `FunctionDeclaration` gets its body
  transformed; an inline arrow with a JSX body gets that body annotated
  directly, any other arrow gets `transformFunctionBody`; an identifier
  is resolved to its declarator and, when its initializer is a function
  value, that initializer (wherever it lives) is transformed.
* `VariableDeclarator`: an arrow/function initializer whose binding has
  a reference inside an export default gets `transformFunctionBody`.

Returns the module after any in-place mutation, and whether the visitor
set `hasModifications`.
-/
def visitTopAt (value : String) (m : JModule) (i : Nat) : JModule × Bool :=
  match m.get? i with
  | none => (m, false)
  | some t =>
    match t with
    | .varDecl nm init =>
        if isFunctionValued init && referencedInExportDefault m nm then
          (modifyAt (updateVarInit value) i m, true)
        else
          (m, false)
    | .exportDefaultFun body =>
        (modifyAt (fun _ => .exportDefaultFun (visitStmtList value body).1) i m, true)
    | .exportDefaultExpr e =>
        match e with
        | .arrowExpr b =>
            if isJsxElementB b then
              (modifyAt (fun _ => .exportDefaultExpr
                  (.arrowExpr (addAttributeToJSXElement value b))) i m, true)
            else
              (modifyAt (fun _ => .exportDefaultExpr
                  (transformFunctionBody value (.arrowExpr b))) i m, true)
        | .arrowBlock ss =>
            (modifyAt (fun _ => .exportDefaultExpr
                (transformFunctionBody value (.arrowBlock ss))) i m, true)
        | .identRef n =>
            match findBindingIdx m n with
            | some j =>
                match m.get? j with
                | some (.varDecl _ init) =>
                    if isFunctionValued init then
                      (modifyAt (updateVarInit value) j m, true)
                    else
                      (m, false)
                | _ => (m, false)
            | none => (m, false)
        | _ => (m, false)
    | .otherTop => (m, false)

/-- The module traversal: visit indices `i, i+1, ...` in document
order, threading the (possibly mutated) module and the accumulated
`hasModifications` flag.  `fuel` bounds the loop; `visitTopAt`
preserves the length, so `m.length` steps reach the end. -/
def runVisitorsFrom (value : String) : Nat → JModule → Nat → Bool → JModule × Bool
  | 0, m, _, mods => (m, mods)
  | fuel + 1, m, i, mods =>
      if i < m.length then
        match visitTopAt value m i with
        | (m', fired) => runVisitorsFrom value fuel m' (i + 1) (mods || fired)
      else
        (m, mods)

/-- One full traversal pass of the module. -/
def runVisitorPass (value : String) (m : JModule) : JModule × Bool :=
  runVisitorsFrom value m.length m 0 false

/-- The AST part of `transformReactComponent` on a successfully parsed
module: traverse with the two visitors; if `hasModifications` is still
false return `null` (no transformation), otherwise re-emit the
(possibly modified) tree. -/
def transformModule (value : String) (m : JModule) : Option JModule :=
  match runVisitorPass value m with
  | (m', true) => some m'
  | (_, false) => none

/-- `componentPath.replace(/\\/g, '/')`, written over the character
list so it evaluates by reduction. -/
def backslashToSlash (s : String) : String :=
  ⟨s.data.map fun c => if c = '\\' then '/' else c⟩

/--
`transformReactComponent(code, componentPath, id)`: the whole body runs
in a `try`/`catch`; a parse failure is caught, logged, and `null` is
returned so the original code is used unmodified.  The parse outcome is
the input here: either the parsed module or the parser's exception.
-/
def transformReactComponent (componentPath : String) (parsed : Except JsError JModule) :
    Option JModule :=
  match parsed with
  | .error _ => none
  | .ok m => transformModule (backslashToSlash componentPath) m

end NbVite

namespace NbVite

/-! ### Template (Vue) path: `transformVueComponent`

Textual splicing, so strings are modeled as `List Char` here.

```
const attributeValue = componentPath.replace(/\\/g, '/').replace(/"/g, '&quot;');
const templateMatch = code.match(/<template>([\s\S]*?)<\/template>/);
if (!templateMatch) return null;
const templateContent = templateMatch[1];
const trimmed = templateContent.trim();
const rootElementMatch = trimmed.match(/^<(\w+)([^>]*)>/);
if (!rootElementMatch) return null;
const [fullMatch, tagName, attributes] = rootElementMatch;
if (attributes.includes('data-nb-component')) return null;
const newRootElement = `<${tagName}${attributes} data-nb-component="${attributeValue}">`;
const newTemplateContent = trimmed.replace(fullMatch, newRootElement);
const newCode = code.replace(/<template>[\s\S]*?<\/template>/,
  `<template>\n${newTemplateContent}\n</template>`);
return { code: newCode, map: null };
```
-/

/-- Split a string at the first occurrence of `pat`: `some (before,
after)` with the occurrence removed, or `none` when `pat` does not
occur.  (`[\s\S]*?` — the lazy match — selects exactly the first
occurrence.) -/
def splitFirst (pat : List Char) : List Char → Option (List Char × List Char)
  | [] => if pat = [] then some ([], []) else none
  | c :: rest =>
      if pat.isPrefixOf (c :: rest) then
        some ([], (c :: rest).drop pat.length)
      else
        (splitFirst pat rest).map fun p => (c :: p.1, p.2)

/-- `String.prototype.includes` (substring containment). -/
def containsSub (pat s : List Char) : Bool :=
  (splitFirst pat s).isSome

/-- `String.prototype.replace` with a plain-string pattern: replace the
first occurrence only. -/
def replaceFirst (pat repl s : List Char) : List Char :=
  match splitFirst pat s with
  | some (before, after) => before ++ repl ++ after
  | none => s

/-- Whitespace removed by `String.prototype.trim` (the characters
relevant to template sources). -/
def isJsWhitespace (c : Char) : Bool :=
  c = ' ' || c = '\t' || c = '\n' || c = '\r' || c = '\x0c' || c = '\x0b'

/-- `templateContent.trim()` -/
def trimChars (s : List Char) : List Char :=
  ((s.dropWhile isJsWhitespace).reverse.dropWhile isJsWhitespace).reverse

/-- `\w` of the root-element regex. -/
def isWordChar (c : Char) : Bool :=
  ('a' ≤ c && c ≤ 'z') || ('A' ≤ c && c ≤ 'Z') || ('0' ≤ c && c ≤ '9') || c = '_'

/-- The class `[^>]` of the root-element regex. -/
def notGt (c : Char) : Bool := c != '>'

/-- `trimmed.match(/^<(\w+)([^>]*)>/)`: `some (tagName, attributes,
rest)` where `'<' :: tagName ++ attributes ++ '>' :: rest = trimmed`,
or `none` if the anchored pattern does not match. -/
def rootElementMatch (trimmed : List Char) : Option (List Char × List Char × List Char) :=
  match trimmed with
  | c0 :: rest =>
      if c0 = '<' then
        let tag := rest.takeWhile isWordChar
        if tag = [] then none
        else
          let rest2 := rest.dropWhile isWordChar
          let attrs := rest2.takeWhile notGt
          match rest2.dropWhile notGt with
          | c1 :: after => if c1 = '>' then some (tag, attrs, after) else none
          | [] => none
      else none
  | [] => none

/-- `.replace(/"/g, '&quot;')` -/
def escapeQuotes : List Char → List Char
  | [] => []
  | '"' :: rest => '&' :: 'q' :: 'u' :: 'o' :: 't' :: ';' :: escapeQuotes rest
  | c :: rest => c :: escapeQuotes rest

/-- `.replace(/\\/g, '/')` on a char list. -/
def backslashToSlashL (s : List Char) : List Char :=
  s.map fun c => if c = '\\' then '/' else c

/-- The literal `<template>`. -/
def templateOpen : List Char := "<template>".data

/-- The literal `</template>`. -/
def templateClose : List Char := "</template>".data

/-- The inserted text up to the attribute value:
`" data-nb-component=\""`. -/
def dataAttrInsert : List Char := (" data-nb-component=\"").data

/-- `transformVueComponent(code, componentPath)`; `none` models the
`null` (no transformation) returns. -/
def transformVueComponent (code : List Char) (componentPath : List Char) :
    Option (List Char) :=
  let attributeValue := escapeQuotes (backslashToSlashL componentPath)
  match splitFirst templateOpen code with
  | none => none
  | some (pre, afterOpen) =>
    match splitFirst templateClose afterOpen with
    | none => none
    | some (templateContent, post) =>
      let trimmed := trimChars templateContent
      match rootElementMatch trimmed with
      | none => none
      | some (tagName, attributes, _) =>
        if containsSub dataAttrName.data attributes then none
        else
          let fullMatch := '<' :: (tagName ++ attributes ++ ['>'])
          let newRootElement :=
            '<' :: (tagName ++ attributes ++ dataAttrInsert ++ attributeValue ++ ['"', '>'])
          let newTemplateContent := replaceFirst fullMatch newRootElement trimmed
          some (pre ++ templateOpen ++ '\n' :: newTemplateContent ++
                '\n' :: (templateClose ++ post))

end NbVite

namespace NbVite

/-! ## Claim theorems -/

/-- C10: both the health middleware and the render middleware match the
request URL against their configured path by exact string equality, so
any request whose URL differs byte-for-byte from the configured path —
in particular the SSR path with a query string appended (`/ssr?x=1`) —
is handled by neither endpoint and falls through to the next
middleware. -/
theorem middleware_url_exact_match (cfg : SSRConfig) (st : Option RenderFn)
    (w : RenderWorld) (req : Request) :
    (healthMiddleware cfg st req = none ↔ ¬ (req.url = cfg.healthPath ∧ req.method = .GET)) ∧
    ((renderMiddleware cfg st w req).response = none ↔ req.url ≠ cfg.path) ∧
    healthMiddleware ⟨"/ssr", "/ssr-health"⟩ st ⟨"/ssr?x=1", .POST⟩ = none ∧
    (renderMiddleware ⟨"/ssr", "/ssr-health"⟩ st w ⟨"/ssr?x=1", .POST⟩).response = none := by
  refine ⟨?_, ?_, ?_, ?_⟩
  · unfold healthMiddleware
    split
    · simp_all
    · simp_all
  · unfold renderMiddleware
    by_cases h : req.url = cfg.path
    · rcases hp : handleRenderPost st w with ⟨resp, c, p⟩
      rcases hm : req.method with _ | _ | _ | s <;> simp [h, hm, hp]
    · simp [h]
  · unfold healthMiddleware
    simp
  · unfold renderMiddleware
    simp

/-- C7: a load attempt starting from an empty cache slot is atomic:
either the entry import succeeds with a callable `render` export and
the slot is populated with exactly that function, or the load fails
(import rejection, or the `render` export absent or not callable), the
error propagates, and the slot stays empty — so the next request
retries the load from scratch and the slot never holds a
half-initialized value. -/
theorem loadRenderFunction_atomic (io : Except JsError SSRModule) :
    (∃ f, io = .ok { render := some (.callable f) } ∧
        loadRenderFunction none io = (.ok f, some f)) ∨
    ((loadRenderFunction none io).2 = none ∧
        ∃ e, (loadRenderFunction none io).1 = .error e) := by
  match io with
  | .error e => exact .inr ⟨rfl, e, rfl⟩
  | .ok m =>
    obtain ⟨r⟩ := m
    match r with
    | some (.callable f) => exact .inl ⟨f, rfl, rfl⟩
    | some .notCallable => exact .inr ⟨rfl, missingRenderError, rfl⟩
    | none => exact .inr ⟨rfl, missingRenderError, rfl⟩

/-- C6: for a changed file under the frontend `js` directory with a
recognized script extension, a basename of `routes.js` or `routes.d.ts`
makes the handler return before touching anything (no module-graph
invalidation, no runner-cache clear, render cache kept), while any
other such file gets its module-graph nodes invalidated, the runner
cache cleared, and the cached render function cleared. -/
theorem fileChange_invalidation (root file : String) (st : Option RenderFn)
    (hdir : ((root ++ "/js").data).isPrefixOf file.data = true)
    (hext : hasScriptExtension file = true) :
    ((basenameOf file = "routes.js".data ∨ basenameOf file = "routes.d.ts".data) →
        onFileChange root st file = (noEffects, st)) ∧
    (basenameOf file ≠ "routes.js".data → basenameOf file ≠ "routes.d.ts".data →
        onFileChange root st file =
          ({ invalidatedModulesOf := some file, clearedRunnerCache := true }, none)) := by
  unfold onFileChange
  simp only [hdir, hext, Bool.and_self, not_true_eq_false, if_false]
  constructor
  · intro h
    simp [h]
  · intro h1 h2
    simp [h1, h2]

/-- Witness for C6: a change to `<root>/js/routes.js` leaves everything
alone; a change to `<root>/js/pages/Home.tsx` invalidates and clears. -/
theorem fileChange_invalidation_witness :
    onFileChange "/proj/assets" none "/proj/assets/js/routes.js" = (noEffects, none) ∧
    onFileChange "/proj/assets" none "/proj/assets/js/pages/Home.tsx" =
      ({ invalidatedModulesOf := some "/proj/assets/js/pages/Home.tsx",
         clearedRunnerCache := true }, none) :=
  ⟨(fileChange_invalidation "/proj/assets" "/proj/assets/js/routes.js" none
      (by decide) (by decide)).1 (.inl (by decide)),
   (fileChange_invalidation "/proj/assets" "/proj/assets/js/pages/Home.tsx" none
      (by decide) (by decide)).2 (by decide) (by decide)⟩

/-- C8: when parsing throws, `transformReactComponent` catches the
exception (logging it) and returns the no-transformation result, so the
original code is used unmodified; the failure never propagates as a
build-breaking error. -/
theorem parse_failure_returns_unchanged (componentPath : String) (e : JsError) :
    transformReactComponent componentPath (.error e) = none := rfl

/-- C4: the chained `replace` calls clobber each other — `**` first
becomes `.*`, whose `*` the next replace rewrites again, yielding
`.[^/]*` (one arbitrary character followed by separator-free
characters) instead of "any sequence".  On the plugin's own default
pattern `lib/**/router.ex`, a router file nested two directories deep
is rejected by the implementation although the specified semantics
accepts it; a single-level path is accepted by both. -/
theorem glob_translation_diverges :
    String.mk (replaceSingleStar (replaceDoubleStar (escapeDots "lib/**/router.ex".data))) =
      "lib/.[^/]*/router\\.ex" ∧
    matchesRouterPattern ["lib/**/router.ex"] "lib/foo/bar/router.ex" = false ∧
    specGlobTest "lib/**/router.ex" "lib/foo/bar/router.ex" = true ∧
    matchesRouterPattern ["lib/**/router.ex"] "lib/app/router.ex" = true ∧
    specGlobTest "lib/**/router.ex" "lib/app/router.ex" = true := by
  refine ⟨by decide, by decide, by decide, by decide, by decide⟩

end NbVite

namespace NbVite

/-- Reading `.component` only throws for the JSON value `null`. -/
theorem pageComponentAccess_ok {page : Json} (h : page ≠ .null) :
    pageComponentAccess page = .ok () := by
  cases page <;> first | rfl | exact absurd rfl h

/-- C2: every exception thrown on the POST path — by body reading, JSON
parsing, render-function loading, or render execution — is caught at
the request boundary and becomes a `500` with body
`{success: false, error: {message, stack}}`, where `message` is the
exception's message for an `Error` and its string form otherwise, and
`stack` appears only for an `Error`.  The handler is a total function:
it always answers the request instead of crashing the server. -/
theorem render_exceptions_contained (cfg : SSRConfig) (st : Option RenderFn)
    (w : RenderWorld) (req : Request) (e : JsError)
    (hurl : req.url = cfg.path) (hpost : req.method = .POST)
    (hfail : w.pageOutcome = .error e ∨
      (∃ page, w.pageOutcome = .ok page ∧ pageComponentAccess page = .ok () ∧
        (loadRenderFunction st w.importOutcome).1 = .error e) ∨
      (∃ page f, w.pageOutcome = .ok page ∧ pageComponentAccess page = .ok () ∧
        (loadRenderFunction st w.importOutcome).1 = .ok f ∧ f page = .error e)) :
    (renderMiddleware cfg st w req).response = some (errorResponse e) ∧
    errorResponse e = { status := 500, body := .jsonBody (errorBody e) } ∧
    (∀ msg stk, errorBody (.errorObj msg (some stk)) =
        .obj [("success", .bool false),
              ("error", .obj [("message", .str msg), ("stack", .str stk)])]) ∧
    (∀ msg, errorBody (.errorObj msg none) =
        .obj [("success", .bool false), ("error", .obj [("message", .str msg)])]) ∧
    (∀ s, errorBody (.other s) =
        .obj [("success", .bool false), ("error", .obj [("message", .str s)])]) := by
  refine ⟨?_, rfl, fun _ _ => rfl, fun _ => rfl, fun _ => rfl⟩
  have hne : ¬ req.method = Method.OPTIONS := by rw [hpost]; intro h; cases h
  unfold renderMiddleware
  simp only [hurl, ne_eq, not_true_eq_false, if_false, hpost, hne, if_neg, if_true]
  rcases hl : loadRenderFunction st w.importOutcome with ⟨res, newC⟩
  rcases hfail with h | ⟨page, hp, hacc, hload⟩ | ⟨page, f, hp, hacc, hload, hrender⟩
  · simp [handleRenderPost, h]
  · rw [hl] at hload; simp at hload
    simp [handleRenderPost, hp, hacc, hl, hload]
  · rw [hl] at hload; simp at hload
    simp [handleRenderPost, hp, hacc, hl, hload, hrender]

/-- Witness for C2: a body-read failure on `POST /ssr` yields the `500`
error response. -/
theorem render_exceptions_contained_witness :
    (renderMiddleware ⟨"/ssr", "/ssr-health"⟩ none
        ⟨.error (.errorObj "boom" (some "stacktrace")), .error (.errorObj "x" none)⟩
        ⟨"/ssr", .POST⟩).response =
      some (errorResponse (.errorObj "boom" (some "stacktrace"))) :=
  (render_exceptions_contained ⟨"/ssr", "/ssr-health"⟩ none
    ⟨.error (.errorObj "boom" (some "stacktrace")), .error (.errorObj "x" none)⟩
    ⟨"/ssr", .POST⟩ (.errorObj "boom" (some "stacktrace")) rfl rfl (.inl rfl)).1

/-- C1 (amended): for every POST to the SSR path whose body parses as a
JSON value *other than the bare `null`*, the endpoint invokes the
(cached or freshly loaded) render function with exactly the parsed page
descriptor — no shape validation beyond JSON parsing — and when the
render call resolves it responds `200` with
`{success: true, result: <render return value>}`.  (For the body
`"null"`, see the counterexample: the page-logging property access
throws before the render function is ever invoked.) -/
theorem render_success_roundtrip (cfg : SSRConfig) (st : Option RenderFn)
    (w : RenderWorld) (req : Request) (page : Json) (f : RenderFn) (result : Json)
    (hurl : req.url = cfg.path) (hpost : req.method = .POST)
    (hpage : w.pageOutcome = .ok page) (hnn : page ≠ .null)
    (hload : (loadRenderFunction st w.importOutcome).1 = .ok f)
    (hrender : f page = .ok result) :
    renderMiddleware cfg st w req =
      { response := some { status := 200, body := .jsonBody (successBody result) },
        cache := (loadRenderFunction st w.importOutcome).2,
        renderedPage := some page } := by
  have hne : ¬ req.method = Method.OPTIONS := by rw [hpost]; intro h; cases h
  have hacc := pageComponentAccess_ok hnn
  unfold renderMiddleware
  simp only [hurl, ne_eq, not_true_eq_false, if_false, hpost, hne, if_neg, if_true]
  rcases hl : loadRenderFunction st w.importOutcome with ⟨res, newC⟩
  rw [hl] at hload; simp at hload
  simp [handleRenderPost, hpage, hacc, hl, hload, hrender]

/-- The spec §8 round-trip page descriptor:
`{"component":"Home","props":{},"url":"/","version":"v1"}`. -/
def samplePage : Json :=
  .obj [("component", .str "Home"), ("props", .obj []), ("url", .str "/"),
        ("version", .str "v1")]

/-- The spec §8 round-trip render result:
`{head: [], body: "<div>Test</div>"}`. -/
def sampleRenderResult : Json :=
  .obj [("head", .arr []), ("body", .str "<div>Test</div>")]

/-- A render function returning `sampleRenderResult`. -/
def sampleRenderFn : RenderFn := fun _ => .ok sampleRenderResult

/-- Witness for C1's amended theorem: the spec §8 render round-trip. -/
theorem render_success_roundtrip_witness :
    renderMiddleware ⟨"/ssr", "/ssr-health"⟩ none
      ⟨.ok samplePage, .ok ⟨some (.callable sampleRenderFn)⟩⟩ ⟨"/ssr", .POST⟩ =
      { response := some ⟨200, .jsonBody (successBody sampleRenderResult)⟩,
        cache := some sampleRenderFn,
        renderedPage := some samplePage } :=
  render_success_roundtrip ⟨"/ssr", "/ssr-health"⟩ none _ ⟨"/ssr", .POST⟩ _ _ _
    rfl rfl rfl (by intro h; cases h) rfl rfl

/-- Counterexample for C1 as stated: the body `"null"` parses as valid
JSON, yet the endpoint answers `500` and never invokes the render
function — the template-literal log accesses `page.component`, which
throws a `TypeError` on `null` before the load even starts. -/
theorem render_null_body_rejected :
    ((renderMiddleware ⟨"/ssr", "/ssr-health"⟩ none
        ⟨.ok .null, .ok ⟨some (.callable sampleRenderFn)⟩⟩
        ⟨"/ssr", .POST⟩).response.map Response.status) = some 500 ∧
    (renderMiddleware ⟨"/ssr", "/ssr-health"⟩ none
        ⟨.ok .null, .ok ⟨some (.callable sampleRenderFn)⟩⟩
        ⟨"/ssr", .POST⟩).renderedPage = none := ⟨rfl, rfl⟩

end NbVite

namespace NbVite

/-- In every reachable watcher state, exactly one regeneration command
runs while `isRegenerating` is set, and none otherwise. -/
theorem router_running_matches_flag (s : RouterWatchState) (h : RouterReachable s) :
    s.runningCommands = (if s.isRegenerating then 1 else 0) := by
  induction h with
  | init => rfl
  | @step s s' e _ hstep ih =>
    obtain ⟨reg, dt, nt, rc⟩ := s
    cases e with
    | matchingChange =>
      simp only [routerStep, Option.some.injEq] at hstep
      subst hstep
      simpa using ih
    | timerFire id =>
      simp only [routerStep] at hstep
      split at hstep
      · split at hstep <;> rename_i hreg <;>
          simp only [Option.some.injEq] at hstep <;> subst hstep <;> simp_all
      · cases hstep
    | commandExit =>
      simp only [routerStep] at hstep
      split at hstep
      · cases hstep
      · rename_i n
        simp only [Option.some.injEq] at hstep
        subst hstep
        simp only at ih ⊢
        cases reg <;> simp_all

/-- C9: the regeneration state keeps at most one external command in
flight: in every reachable state `runningCommands ≤ 1`; a debounce
timer firing while a command is running only clears the timer — no
second command is spawned, nothing is queued (only the `debounceTimer`
slot exists, and it is emptied); and a matching change event always
resets the debounce timer to a fresh `setTimeout`, leaving the rest of
the state (including any running command) untouched. -/
theorem router_mutual_exclusion :
    (∀ s, RouterReachable s → s.runningCommands ≤ 1) ∧
    (∀ s id s', s.isRegenerating = true → routerStep s (.timerFire id) = some s' →
        s' = { s with debounceTimer := none }) ∧
    (∀ s, routerStep s .matchingChange =
        some { s with debounceTimer := some s.nextTimerId,
                      nextTimerId := s.nextTimerId + 1 }) := by
  refine ⟨?_, ?_, fun s => rfl⟩
  · intro s h
    rw [router_running_matches_flag s h]
    split <;> omega
  · intro s id s' hreg hstep
    obtain ⟨reg, dt, nt, rc⟩ := s
    simp only at hreg
    subst hreg
    simp only [routerStep, if_true] at hstep
    split at hstep
    · simp only [Option.some.injEq] at hstep
      exact hstep.symm
    · cases hstep

/-- Witness for C9: the initial state satisfies the bound, and a timer
firing in a concrete in-flight state is dropped with only the timer
slot cleared. -/
theorem router_mutual_exclusion_witness :
    initialRouterState.runningCommands ≤ 1 ∧
    ({ isRegenerating := true, debounceTimer := none, nextTimerId := 6,
       runningCommands := 1 } : RouterWatchState) =
      { ({ isRegenerating := true, debounceTimer := some 5, nextTimerId := 6,
           runningCommands := 1 } : RouterWatchState) with debounceTimer := none } :=
  ⟨router_mutual_exclusion.1 initialRouterState .init,
   router_mutual_exclusion.2.1
     { isRegenerating := true, debounceTimer := some 5, nextTimerId := 6,
       runningCommands := 1 } 5 _ rfl rfl⟩

end NbVite


namespace NbVite

/-! ### The traversal only mutates at an `attributed` stop -/

mutual

theorem visitExpr_no_attr (v : String) (e e' : JExpr) (o : Option VisitOutcome)
    (hv : visitExpr v e = (e', o)) (h : o ≠ some .attributed) : e' = e := by
  match e with
  | .jsxElement attrs children =>
      rcases hvl : visitExprList v children with ⟨cs, o2⟩
      simp only [visitExpr, hvl] at hv
      cases hv
      exact congrArg (JExpr.jsxElement attrs) (visitExprList_no_attr v children cs _ hvl h)
  | .jsxFragment children =>
      rcases hvl : visitExprList v children with ⟨cs, o2⟩
      simp only [visitExpr, hvl] at hv
      cases hv
      exact congrArg JExpr.jsxFragment (visitExprList_no_attr v children cs _ hvl h)
  | .arrowExpr body =>
      by_cases hj : isJsxElementB body
      · simp only [visitExpr, hj, if_true] at hv
        cases hv
        exact absurd rfl h
      · rcases hb : visitExpr v body with ⟨b', o2⟩
        simp only [visitExpr, hj, if_false, hb] at hv
        cases hv
        exact congrArg JExpr.arrowExpr (visitExpr_no_attr v body b' _ hb h)
  | .arrowBlock body =>
      rcases hvl : visitStmtList v body with ⟨ss, o2⟩
      simp only [visitExpr, hvl] at hv
      cases hv
      exact congrArg JExpr.arrowBlock (visitStmtList_no_attr v body ss _ hvl h)
  | .funExpr body =>
      rcases hvl : visitStmtList v body with ⟨ss, o2⟩
      simp only [visitExpr, hvl] at hv
      cases hv
      exact congrArg JExpr.funExpr (visitStmtList_no_attr v body ss _ hvl h)
  | .identRef n =>
      simp only [visitExpr] at hv
      cases hv
      rfl
  | .otherExpr subs =>
      rcases hvl : visitExprList v subs with ⟨cs, o2⟩
      simp only [visitExpr, hvl] at hv
      cases hv
      exact congrArg JExpr.otherExpr (visitExprList_no_attr v subs cs _ hvl h)

theorem visitExprList_no_attr (v : String) (l l' : JExprList) (o : Option VisitOutcome)
    (hv : visitExprList v l = (l', o)) (h : o ≠ some .attributed) : l' = l := by
  match l with
  | .nil =>
      simp only [visitExprList] at hv
      cases hv
      rfl
  | .cons e rest =>
      rcases hve : visitExpr v e with ⟨e1, o1⟩
      match o1 with
      | some o1' =>
          simp only [visitExprList, hve] at hv
          cases hv
          exact congrArg (fun x => JExprList.cons x rest) (visitExpr_no_attr v e e1 _ hve h)
      | none =>
          rcases hvr : visitExprList v rest with ⟨rest', o2⟩
          simp only [visitExprList, hve, hvr] at hv
          cases hv
          exact congrArg₂ JExprList.cons
            (visitExpr_no_attr v e e1 none hve (fun hx => Option.noConfusion hx))
            (visitExprList_no_attr v rest rest' _ hvr h)

theorem visitStmt_no_attr (v : String) (s s' : JStmt) (o : Option VisitOutcome)
    (hv : visitStmt v s = (s', o)) (h : o ≠ some .attributed) : s' = s := by
  match s with
  | .ret none =>
      simp only [visitStmt] at hv
      cases hv
      rfl
  | .ret (some e) =>
      by_cases hj : isJsxElementB e
      · simp only [visitStmt, hj, if_true] at hv
        cases hv
        exact absurd rfl h
      · by_cases hf : isJsxFragmentB e
        · simp only [visitStmt, hj, hf, if_false, if_true] at hv
          cases hv
          rfl
        · rcases hve : visitExpr v e with ⟨e1, o1⟩
          simp only [visitStmt, hj, hf, if_false, hve] at hv
          cases hv
          exact congrArg (fun x => JStmt.ret (some x)) (visitExpr_no_attr v e e1 _ hve h)
  | .exprStmt e =>
      rcases hve : visitExpr v e with ⟨e1, o1⟩
      simp only [visitStmt, hve] at hv
      cases hv
      exact congrArg JStmt.exprStmt (visitExpr_no_attr v e e1 _ hve h)
  | .ifStmt test thenB elseB =>
      rcases hvt : visitExpr v test with ⟨t1, o1⟩
      match o1 with
      | some o1' =>
          simp only [visitStmt, hvt] at hv
          cases hv
          have h1 := visitExpr_no_attr v test t1 _ hvt h
          rw [h1]
      | none =>
          rcases hvthen : visitStmtList v thenB with ⟨thn1, o2⟩
          match o2 with
          | some o2' =>
              simp only [visitStmt, hvt, hvthen] at hv
              cases hv
              have h1 := visitExpr_no_attr v test t1 none hvt (fun hx => Option.noConfusion hx)
              have h2 := visitStmtList_no_attr v thenB thn1 _ hvthen h
              rw [h1, h2]
          | none =>
              rcases hvelse : visitStmtList v elseB with ⟨els1, o3⟩
              simp only [visitStmt, hvt, hvthen, hvelse] at hv
              cases hv
              have h1 := visitExpr_no_attr v test t1 none hvt (fun hx => Option.noConfusion hx)
              have h2 := visitStmtList_no_attr v thenB thn1 none hvthen
                (fun hx => Option.noConfusion hx)
              have h3 := visitStmtList_no_attr v elseB els1 _ hvelse h
              rw [h1, h2, h3]

theorem visitStmtList_no_attr (v : String) (l l' : JStmtList) (o : Option VisitOutcome)
    (hv : visitStmtList v l = (l', o)) (h : o ≠ some .attributed) : l' = l := by
  match l with
  | .nil =>
      simp only [visitStmtList] at hv
      cases hv
      rfl
  | .cons s rest =>
      rcases hvs : visitStmt v s with ⟨s1, o1⟩
      match o1 with
      | some o1' =>
          simp only [visitStmtList, hvs] at hv
          cases hv
          exact congrArg (fun x => JStmtList.cons x rest) (visitStmt_no_attr v s s1 _ hvs h)
      | none =>
          rcases hvr : visitStmtList v rest with ⟨rest', o2⟩
          simp only [visitStmtList, hvs, hvr] at hv
          cases hv
          exact congrArg₂ JStmtList.cons
            (visitStmt_no_attr v s s1 none hvs (fun hx => Option.noConfusion hx))
            (visitStmtList_no_attr v rest rest' _ hvr h)

end

end NbVite

namespace NbVite

/-- `export default function Component() { return <>...</>; }` — a
function component whose first return statement carries a fragment. -/
def fragmentComponent : JModule :=
  [.exportDefaultFun (.cons (.ret (some (.jsxFragment .nil))) .nil)]

/-- `const H = () => { return <span/> }; export default function C()
{ return <>{H}</> }` — a fragment-returning default export sharing the
file with a function-valued helper it references. -/
def helperFragmentModule : JModule :=
  [ .varDecl "H" (some (.arrowBlock (.cons (.ret (some (.jsxElement [] .nil))) .nil))),
    .exportDefaultFun (.cons (.ret (some (.jsxFragment (.cons (.identRef "H") .nil)))) .nil) ]

/-- The same module after the transform: the helper's returned element
has been annotated even though the default export returns a fragment. -/
def helperFragmentModule1 : JModule :=
  [ .varDecl "H" (some (.arrowBlock (.cons
      (.ret (some (.jsxElement [.named dataAttrName "js/pages/Frag.tsx"] .nil))) .nil))),
    .exportDefaultFun (.cons (.ret (some (.jsxFragment (.cons (.identRef "H") .nil)))) .nil) ]

/-- Counterexample for C3 as stated, in both directions it fails.  On a
fragment-returning component the transform does NOT report "unchanged"
— `hasModifications` is set as soon as a default-exported function
declaration is recognized, before any element is found, so the
transform returns a regenerated result (here: the structurally
identical tree) instead of the no-transformation result `null`.  And
the source is not necessarily left unmodified either: when the
fragment-returning export references a function-valued helper declared
in the same file, the `VariableDeclarator` visitor still annotates the
helper's returned element, so the output differs from the input. -/
theorem fragment_component_still_reports_result :
    (transformModule "js/pages/Frag.tsx" fragmentComponent ≠ none ∧
     transformModule "js/pages/Frag.tsx" fragmentComponent = some fragmentComponent) ∧
    (transformModule "js/pages/Frag.tsx" helperFragmentModule = some helperFragmentModule1 ∧
     helperFragmentModule1 ≠ helperFragmentModule) :=
  ⟨⟨Option.some_ne_none _, rfl⟩,
   ⟨rfl, by simp [helperFragmentModule, helperFragmentModule1, dataAttrName]⟩⟩

end NbVite


namespace NbVite

/-! ### String-splicing lemmas for the template path -/

/-- Unfolding equation of `splitFirst` on a `cons`. -/
theorem splitFirst_cons (pat : List Char) (c : Char) (rest : List Char) :
    splitFirst pat (c :: rest) =
      if pat.isPrefixOf (c :: rest) = true
      then some ([], (c :: rest).drop pat.length)
      else Option.map (fun q => (c :: q.1, q.2)) (splitFirst pat rest) := by
  simp [splitFirst]

/-- A successful split decomposes the string around the pattern. -/
theorem splitFirst_eq {pat s b a : List Char} (h : splitFirst pat s = some (b, a)) :
    s = b ++ pat ++ a := by
  induction s generalizing b a with
  | nil =>
    simp only [splitFirst] at h
    split at h
    · rename_i hp
      simp only [Option.some.injEq, Prod.mk.injEq] at h
      obtain ⟨hb, ha⟩ := h
      subst hb; subst ha
      simp [hp]
    · cases h
  | cons c rest ih =>
    rw [splitFirst_cons] at h
    split at h
    · rename_i hp
      simp only [Option.some.injEq, Prod.mk.injEq] at h
      obtain ⟨hb, ha⟩ := h
      subst hb; subst ha
      obtain ⟨t, ht⟩ := List.isPrefixOf_iff_prefix.mp hp
      rw [← ht, List.nil_append, List.drop_left]
    · rcases hr : splitFirst pat rest with _ | ⟨b', a'⟩
      · rw [hr] at h; cases h
      · rw [hr] at h
        simp only [Option.map_some', Option.map_some, Option.some.injEq, Prod.mk.injEq] at h
        obtain ⟨hb, ha⟩ := h
        subst hb; subst ha
        simp [ih hr]

/-- The pattern at the front is always the first occurrence. -/
theorem splitFirst_self_append (pat t : List Char) :
    splitFirst pat (pat ++ t) = some ([], t) := by
  match pat with
  | [] =>
    match t with
    | [] => rfl
    | c :: r => simp [splitFirst, List.isPrefixOf]
  | p :: pr =>
    have hpre : (p :: pr).isPrefixOf ((p :: pr) ++ t) = true :=
      List.isPrefixOf_iff_prefix.mpr (List.prefix_append _ _)
    have hun : splitFirst (p :: pr) ((p :: pr) ++ t) =
        if (p :: pr).isPrefixOf ((p :: pr) ++ t) = true
        then some ([], ((p :: pr) ++ t).drop (p :: pr).length)
        else Option.map (fun q => (p :: q.1, q.2)) (splitFirst (p :: pr) (pr ++ t)) :=
      splitFirst_cons (p :: pr) p (pr ++ t)
    rw [hun, if_pos hpre, List.drop_left]

/-- Whether a pattern is a prefix does not depend on the text beyond the
pattern's length. -/
theorem isPrefixOf_append_of_le {pat u : List Char} (x : List Char)
    (h : pat.length ≤ u.length) :
    pat.isPrefixOf (u ++ x) = pat.isPrefixOf u := by
  have hiff : pat <+: u ++ x ↔ pat <+: u := by
    constructor
    · intro hp
      rw [List.prefix_iff_eq_take] at hp ⊢
      rwa [List.take_append_of_le_length h] at hp
    · intro hp
      exact hp.trans (List.prefix_append u x)
  cases hx : pat.isPrefixOf (u ++ x) <;> cases hu : pat.isPrefixOf u <;> try rfl
  · have := List.isPrefixOf_iff_prefix.mpr (hiff.mpr (List.isPrefixOf_iff_prefix.mp hu))
    rw [hx] at this
    cases this
  · have := List.isPrefixOf_iff_prefix.mpr (hiff.mp (List.isPrefixOf_iff_prefix.mp hx))
    rw [hu] at this
    cases this

/-- Replacing everything after the first occurrence does not move the
split position. -/
theorem splitFirst_stable {pat s b a : List Char} (x : List Char)
    (h : splitFirst pat s = some (b, a)) :
    splitFirst pat (b ++ pat ++ x) = some (b, x) := by
  induction s generalizing b a with
  | nil =>
    simp only [splitFirst] at h
    split at h
    · rename_i hp
      simp only [Option.some.injEq, Prod.mk.injEq] at h
      obtain ⟨hb, _⟩ := h
      subst hb
      subst hp
      match x with
      | [] => rfl
      | c :: r => simp [splitFirst, List.isPrefixOf]
    · cases h
  | cons c rest ih =>
    rw [splitFirst_cons] at h
    split at h
    · rename_i hp
      simp only [Option.some.injEq, Prod.mk.injEq] at h
      obtain ⟨hb, _⟩ := h
      subst hb
      simpa using splitFirst_self_append pat x
    · rename_i hp
      rcases hr : splitFirst pat rest with _ | ⟨b', a'⟩
      · rw [hr] at h; cases h
      · rw [hr] at h
        simp only [Option.map_some', Option.map_some, Option.some.injEq, Prod.mk.injEq] at h
        obtain ⟨hb, ha⟩ := h
        subst hb
        subst ha
        have hres := splitFirst_eq hr
        have hlen : pat.length ≤ (c :: (b' ++ pat)).length := by
          simp [List.length_append]
          omega
        have hnot : ¬ pat.isPrefixOf ((c :: (b' ++ pat)) ++ x) = true := by
          rw [isPrefixOf_append_of_le x hlen]
          rw [← isPrefixOf_append_of_le a' hlen]
          have : (c :: (b' ++ pat)) ++ a' = c :: rest := by rw [hres]; simp
          rw [this]
          exact hp
        have hgoal : (c :: b') ++ pat ++ x = c :: (b' ++ pat ++ x) := by simp
        rw [hgoal, splitFirst_cons,
            if_neg (by simpa using hnot), ih hr]
        rfl

/-- A string containing the pattern splits successfully. -/
theorem splitFirst_isSome (pat y z : List Char) :
    (splitFirst pat (y ++ pat ++ z)).isSome = true := by
  induction y with
  | nil => simp [splitFirst_self_append]
  | cons c rest ih =>
    have hgoal : (c :: rest) ++ pat ++ z = c :: (rest ++ pat ++ z) := by simp
    rw [hgoal, splitFirst_cons]
    split
    · simp
    · rcases hr : splitFirst pat (rest ++ pat ++ z) with _ | p
      · rw [hr] at ih; cases ih
      · simp [hr]

/-- `includes` holds on any string containing the pattern. -/
theorem containsSub_append (pat y z : List Char) :
    containsSub pat (y ++ pat ++ z) = true :=
  splitFirst_isSome pat y z

/--
If no occurrence of the pattern can start inside `u`, the first split
of `u ++ X` is the first split of `X` shifted by `u`.
-/
theorem splitFirst_prepend {pat : List Char} (u X : List Char)
    (hno : ∀ v w, u = v ++ w → w ≠ [] → ¬ pat.isPrefixOf (w ++ X) = true) :
    splitFirst pat (u ++ X) =
      (splitFirst pat X).map (fun q => (u ++ q.1, q.2)) := by
  induction u with
  | nil =>
    simp only [List.nil_append]
    rcases hx : splitFirst pat X with _ | ⟨b, a⟩ <;> simp
  | cons c rest ih =>
    have hc : ¬ pat.isPrefixOf ((c :: rest) ++ X) = true :=
      hno [] (c :: rest) rfl (by simp)
    have hgoal : (c :: rest) ++ X = c :: (rest ++ X) := by simp
    rw [hgoal, splitFirst_cons, if_neg (by simpa using hc)]
    rw [ih (fun v w hvw hw => hno (c :: v) w (by rw [hvw]; rfl) hw)]
    rcases hx : splitFirst pat X with _ | ⟨b, a⟩ <;> simp

/-- Of two suffixes of the same list, the shorter is a suffix of the
longer. -/
theorem suffix_of_suffix_le {a b u : List Char} (ha : a <:+ u) (hb : b <:+ u)
    (hl : a.length ≤ b.length) : a <:+ b := by
  obtain ⟨va, hva⟩ := ha
  obtain ⟨vb, hvb⟩ := hb
  have hlu : va.length + a.length = u.length := by rw [← hva]; simp
  have hlb : vb.length + b.length = u.length := by rw [← hvb]; simp
  have hd : a = u.drop va.length := by rw [← hva, List.drop_left]
  have hdb : b = u.drop vb.length := by rw [← hvb, List.drop_left]
  have hab : a = b.drop (va.length - vb.length) := by
    rw [hd, hdb, List.drop_drop]
    congr 1
    omega
  rw [hab]
  exact List.drop_suffix _ _

/--
No occurrence of the pattern can start inside `u` when: `u` has a
suffix `tail0` at least as long as the pattern, some pattern character
does not occur in `u` at all, and the pattern's first character does
not occur in `tail0`.  (An occurrence starting in `u` either fits
before `tail0` ends — forcing every pattern character into `u` — or
starts inside `tail0` — forcing the pattern's head into `tail0`.)
-/
theorem noOcc_of_alphabet {pat : List Char} (u tail0 X : List Char)
    (htail : tail0 <:+ u) (hfit : pat.length ≤ tail0.length)
    (c1 : Char) (hc1 : c1 ∈ pat) (hc1u : c1 ∉ u)
    (c0 : Char) (prest : List Char) (hpat : pat = c0 :: prest) (hc0 : c0 ∉ tail0) :
    ∀ v w, u = v ++ w → w ≠ [] → ¬ pat.isPrefixOf (w ++ X) = true := by
  intro v w hvw hw hpre
  have hw_suff : w <:+ u := ⟨v, hvw.symm⟩
  have hp : pat <+: w ++ X := List.isPrefixOf_iff_prefix.mp hpre
  by_cases hlw : pat.length ≤ w.length
  · have hpw : pat <+: w := by
      rw [List.prefix_iff_eq_take] at hp ⊢
      rwa [List.take_append_of_le_length hlw] at hp
    exact hc1u (hw_suff.subset (hpw.subset hc1))
  · push_neg at hlw
    have hwp : w <+: pat := by
      rw [List.prefix_iff_eq_take]
      have h1 : List.take w.length (w ++ X) = w := by
        rw [List.take_append_of_le_length (le_refl _), List.take_length]
      have h2 := List.prefix_iff_eq_take.mp hp
      calc w = List.take w.length (w ++ X) := h1.symm
        _ = List.take w.length (List.take pat.length (w ++ X)) := by
              rw [List.take_take, min_eq_left (le_of_lt hlw)]
        _ = List.take w.length pat := by rw [← h2]
    have hwt : w <:+ tail0 := by
      refine suffix_of_suffix_le hw_suff htail ?_
      omega
    match w, hw with
    | wc :: wrest, _ =>
      have hhead : wc = c0 := by
        rw [hpat] at hwp
        obtain ⟨t, ht⟩ := hwp
        rw [List.cons_append] at ht
        exact (List.cons.injEq _ _ _ _ ▸ ht).1
      exact hc0 (hhead ▸ hwt.subset (by simp))

/-- `takeWhile` passes over a block whose characters all satisfy `p`. -/
theorem takeWhile_append_all {p : Char → Bool} {y : List Char} (z : List Char)
    (h : ∀ c ∈ y, p c = true) : (y ++ z).takeWhile p = y ++ z.takeWhile p := by
  induction y with
  | nil => simp
  | cons c r ih =>
    have hc := h c (by simp)
    simp only [List.cons_append, List.takeWhile_cons, hc, if_true]
    rw [ih (fun d hd => h d (by simp [hd]))]

/-- `dropWhile` passes over a block whose characters all satisfy `p`. -/
theorem dropWhile_append_all {p : Char → Bool} {y : List Char} (z : List Char)
    (h : ∀ c ∈ y, p c = true) : (y ++ z).dropWhile p = z.dropWhile p := by
  induction y with
  | nil => simp
  | cons c r ih =>
    have hc := h c (by simp)
    simp only [List.cons_append, List.dropWhile_cons, hc, if_true]
    exact ih (fun d hd => h d (by simp [hd]))

/-- `dropWhile` keeps a list whose head fails `p`. -/
theorem dropWhile_of_head_false {p : Char → Bool} {c : Char} (l : List Char)
    (h : p c = false) : (c :: l).dropWhile p = c :: l := by
  simp [List.dropWhile_cons, h]

/-- `takeWhile` empties a list whose head fails `p`. -/
theorem takeWhile_of_head_false {p : Char → Bool} {c : Char} (l : List Char)
    (h : p c = false) : (c :: l).takeWhile p = [] := by
  simp [List.takeWhile_cons, h]

/-- Trimming only from the right keeps any prefix ending in a
non-whitespace character. -/
theorem trimEnd_keeps_front (y0 t : List Char) (clast : Char)
    (hl : isJsWhitespace clast = false) :
    ∃ t', (((y0 ++ [clast]) ++ t).reverse.dropWhile isJsWhitespace).reverse =
      (y0 ++ [clast]) ++ t' := by
  rw [List.reverse_append]
  have hyr : (y0 ++ [clast]).reverse = clast :: y0.reverse := by simp
  rw [hyr, List.dropWhile_append]
  split
  · refine ⟨[], ?_⟩
    rw [dropWhile_of_head_false _ hl]
    simp
  · refine ⟨(t.reverse.dropWhile isJsWhitespace).reverse, ?_⟩
    rw [List.reverse_append]
    simp

/-- The head of a non-empty `dropWhile` result fails the predicate. -/
theorem dropWhile_head_false {p : Char → Bool} {l : List Char} {c : Char} {r : List Char}
    (h : l.dropWhile p = c :: r) : p c = false := by
  induction l with
  | nil => cases h
  | cons a as ih =>
    rw [List.dropWhile_cons] at h
    split at h
    · exact ih h
    · rename_i hp
      cases h
      simpa using hp

/-- Decomposition of a successful root-element match. -/
theorem rootElementMatch_spec {trimmed tag attrs after : List Char}
    (h : rootElementMatch trimmed = some (tag, attrs, after)) :
    trimmed = '<' :: (tag ++ attrs ++ '>' :: after) ∧ tag ≠ [] ∧
    (∀ c ∈ tag, isWordChar c = true) ∧
    (∀ c ∈ attrs, notGt c = true) ∧
    (∀ c r, attrs = c :: r → isWordChar c = false) := by
  cases trimmed with
  | nil => simp [rootElementMatch] at h
  | cons c0 rest =>
    simp only [rootElementMatch] at h
    by_cases hc0 : c0 = '<'
    · rw [if_pos hc0] at h
      subst hc0
      by_cases htag : rest.takeWhile isWordChar = []
      · rw [if_pos htag] at h
        cases h
      · rw [if_neg htag] at h
        split at h
        · rename_i c1 after0 hd
          split at h
          · rename_i hc1
            subst hc1
            simp only [Option.some.injEq, Prod.mk.injEq] at h
            obtain ⟨htg, hat, haf⟩ := h
            subst htg
            subst hat
            subst haf
            have h1 := List.takeWhile_append_dropWhile isWordChar rest
            have h2 := List.takeWhile_append_dropWhile notGt (rest.dropWhile isWordChar)
            rw [hd] at h2
            refine ⟨?_, htag, ?_, ?_, ?_⟩
            · have hrest : rest = rest.takeWhile isWordChar ++
                  ((rest.dropWhile isWordChar).takeWhile notGt ++ '>' :: after0) := by
                conv_lhs => rw [← h1]
                rw [h2]
              conv_lhs => rw [hrest]
              simp [List.append_assoc]
            · exact fun c hc => List.mem_takeWhile_imp hc
            · exact fun c hc => List.mem_takeWhile_imp hc
            · intro c r hr
              have hD : rest.dropWhile isWordChar = c :: (r ++ '>' :: after0) := by
                rw [← h2, hr]
                simp
              exact dropWhile_head_false hD
          · cases h
        · cases h
    · rw [if_neg hc0] at h
      cases h

end NbVite

namespace NbVite

/-- The injected attribute text always contains the attribute name. -/
theorem containsSub_insert (attrs t : List Char) :
    containsSub dataAttrName.data (attrs ++ (dataAttrInsert ++ t)) = true := by
  have hsplit : dataAttrInsert = [' '] ++ dataAttrName.data ++ (['='] ++ ['"']) := by decide
  have : attrs ++ (dataAttrInsert ++ t) =
      (attrs ++ [' ']) ++ dataAttrName.data ++ ((['='] ++ ['"']) ++ t) := by
    rw [hsplit]
    simp
  rw [this]
  exact containsSub_append _ _ _

/-- Matching the root element of a template whose tag already carries
the injected attribute: either the anchored regex fails (no closing
`>`), or the captured attribute text retains the whole inserted
attribute prefix. -/
theorem vue_root_after_insert (tag attrs s₂ : List Char)
    (htagne : tag ≠ [])
    (htagw : ∀ c ∈ tag, isWordChar c = true)
    (hattrs : ∀ c ∈ attrs, notGt c = true)
    (hattrhead : ∀ c r, attrs = c :: r → isWordChar c = false) :
    rootElementMatch ('<' :: (tag ++ (attrs ++ (dataAttrInsert ++ s₂)))) = none ∨
    ∃ aft, rootElementMatch ('<' :: (tag ++ (attrs ++ (dataAttrInsert ++ s₂)))) =
      some (tag, attrs ++ (dataAttrInsert ++ s₂.takeWhile notGt), aft) := by
  have hinsws : ∀ c ∈ dataAttrInsert, notGt c = true := by decide
  have htailword : (attrs ++ (dataAttrInsert ++ s₂)).takeWhile isWordChar = [] := by
    match attrs, hattrhead with
    | [], _ =>
      simp only [List.nil_append]
      have : dataAttrInsert ++ s₂ = ' ' :: ("data-nb-component=\"".data ++ s₂) := by
        simp [dataAttrInsert]
      rw [this]
      exact takeWhile_of_head_false _ (by decide)
    | c :: r, hh =>
      rw [List.cons_append]
      exact takeWhile_of_head_false _ (hh c r rfl)
  have htaildrop : (attrs ++ (dataAttrInsert ++ s₂)).dropWhile isWordChar =
      attrs ++ (dataAttrInsert ++ s₂) := by
    have := List.takeWhile_append_dropWhile isWordChar (attrs ++ (dataAttrInsert ++ s₂))
    rw [htailword] at this
    simpa using this
  have htake : (tag ++ (attrs ++ (dataAttrInsert ++ s₂))).takeWhile isWordChar = tag := by
    rw [takeWhile_append_all _ htagw, htailword]
    simp
  have hdrop : (tag ++ (attrs ++ (dataAttrInsert ++ s₂))).dropWhile isWordChar =
      attrs ++ (dataAttrInsert ++ s₂) := by
    rw [dropWhile_append_all _ htagw, htaildrop]
  have hattrs2 : (attrs ++ (dataAttrInsert ++ s₂)).takeWhile notGt =
      attrs ++ (dataAttrInsert ++ s₂.takeWhile notGt) := by
    rw [takeWhile_append_all _ hattrs, takeWhile_append_all _ hinsws]
  have hdrop2 : (attrs ++ (dataAttrInsert ++ s₂)).dropWhile notGt = s₂.dropWhile notGt := by
    rw [dropWhile_append_all _ hattrs, dropWhile_append_all _ hinsws]
  simp only [rootElementMatch, if_pos rfl, htake, hdrop, if_neg htagne, hattrs2, hdrop2]
  rcases hs : s₂.dropWhile notGt with _ | ⟨c1, aft⟩
  · exact .inl rfl
  · have hc1 : c1 = '>' := by
      have := dropWhile_head_false hs
      simpa [notGt] using this
    subst hc1
    right
    exact ⟨aft, by simp⟩

end NbVite

namespace NbVite

/-- The template path never re-annotates: a successful transform's
output is rejected (no transformation) by a second run. -/
theorem transformVue_second_pass_none (code cp out : List Char)
    (h : transformVueComponent code cp = some out) :
    transformVueComponent out cp = none := by
  simp only [transformVueComponent] at h
  rcases h1 : splitFirst templateOpen code with _ | ⟨pre, afterOpen⟩
  · simp only [h1] at h; cases h
  simp only [h1] at h
  rcases h2 : splitFirst templateClose afterOpen with _ | ⟨content, post⟩
  · simp only [h2] at h; cases h
  simp only [h2] at h
  rcases h3 : rootElementMatch (trimChars content) with _ | ⟨tag, ap⟩
  · simp only [h3] at h; cases h
  rcases ap with ⟨attrs, after⟩
  simp only [h3] at h
  by_cases h4 : containsSub dataAttrName.data attrs = true
  · rw [if_pos h4] at h; cases h
  rw [if_neg h4] at h
  simp only [Option.some.injEq] at h
  obtain ⟨htr, htagne, htagw, hattrs, hattrhead⟩ := rootElementMatch_spec h3
  set attributeValue := escapeQuotes (backslashToSlashL cp) with hav
  have htrfull : trimChars content = ('<' :: (tag ++ attrs ++ ['>'])) ++ after := by
    rw [htr]; simp
  have hreplace : replaceFirst ('<' :: (tag ++ attrs ++ ['>']))
      ('<' :: (tag ++ attrs ++ dataAttrInsert ++ attributeValue ++ ['"', '>']))
      (trimChars content) =
      ('<' :: (tag ++ attrs ++ dataAttrInsert ++ attributeValue ++ ['"', '>'])) ++ after := by
    rw [replaceFirst, htrfull, splitFirst_self_append]
    simp
  rw [hreplace] at h
  -- name the pieces of the output text
  set u := '\n' :: '<' :: (tag ++ (attrs ++ dataAttrInsert)) with hu
  set R := attributeValue ++ ('"' :: '>' :: (after ++ ('\n' :: (templateClose ++ post))))
    with hR
  have hout : out = pre ++ templateOpen ++ (u ++ R) := by
    rw [← h, hu, hR]
    simp
  -- pass 2, step 1: same template opening
  have hs1 : splitFirst templateOpen out = some (pre, u ++ R) := by
    rw [hout]
    exact splitFirst_stable (u ++ R) h1
  -- pass 2, step 2: the closing tag cannot start inside `u`
  have hnogt_u : ('>' : Char) ∉ u := by
    rw [hu]
    intro hmem
    simp only [List.mem_cons, List.mem_append] at hmem
    rcases hmem with h' | h' | h' | h' | h'
    · cases h'
    · cases h'
    · have := htagw _ h'
      simp [isWordChar] at this
    · have := hattrs _ h'
      simp [notGt] at this
    · revert h'
      decide
  have hsuf : dataAttrInsert <:+ u := by
    refine ⟨'\n' :: '<' :: (tag ++ attrs), ?_⟩
    rw [hu]
    simp
  have hno := @noOcc_of_alphabet templateClose u dataAttrInsert R
    hsuf (by decide) '>' (by decide) hnogt_u '<' ("/template>".data) (by decide) (by decide)
  have hexists : ∃ r1 r2, splitFirst templateClose R = some (r1, r2) := by
    have hshape : R = (attributeValue ++ ('"' :: '>' :: after) ++ ['\n']) ++
        templateClose ++ post := by
      rw [hR]; simp
    rw [hshape]
    have := splitFirst_isSome templateClose
      (attributeValue ++ ('"' :: '>' :: after) ++ ['\n']) post
    rcases hsp : splitFirst templateClose
        ((attributeValue ++ ('"' :: '>' :: after) ++ ['\n']) ++ templateClose ++ post)
      with _ | ⟨r1, r2⟩
    · rw [hsp] at this; cases this
    · exact ⟨r1, r2, rfl⟩
  obtain ⟨r1, r2, hr⟩ := hexists
  have hs2 : splitFirst templateClose (u ++ R) = some (u ++ r1, r2) := by
    rw [splitFirst_prepend u R hno, hr]
    rfl
  -- pass 2, step 3: trimming keeps the annotated opening tag
  have hins0 : dataAttrInsert = " data-nb-component=".data ++ ['"'] := by decide
  obtain ⟨t2, ht2⟩ := trimEnd_keeps_front
    ('<' :: (tag ++ (attrs ++ " data-nb-component=".data))) r1 '"' (by decide)
  have htrim2 : trimChars (u ++ r1) = '<' :: (tag ++ (attrs ++ (dataAttrInsert ++ t2))) := by
    rw [hu]
    have hfront : (('\n' :: '<' :: (tag ++ (attrs ++ dataAttrInsert))) ++ r1).dropWhile
        isJsWhitespace = ('<' :: (tag ++ (attrs ++ dataAttrInsert))) ++ r1 := by
      rw [List.cons_append, List.dropWhile_cons]
      simp only [show isJsWhitespace '\n' = true by decide, if_true]
      rw [List.cons_append]
      exact dropWhile_of_head_false _ (by decide)
    rw [trimChars, hfront]
    have hshape2 : ('<' :: (tag ++ (attrs ++ dataAttrInsert))) ++ r1 =
        (('<' :: (tag ++ (attrs ++ " data-nb-component=".data))) ++ ['"']) ++ r1 := by
      rw [hins0]
      simp
    rw [hshape2, ht2, hins0]
    simp
  -- assemble
  simp only [transformVueComponent, hs1, hs2, htrim2]
  rcases vue_root_after_insert tag attrs t2 htagne htagw hattrs hattrhead with hroot | ⟨aft, hroot⟩
  · simp only [hroot]
  · simp only [hroot, if_pos (containsSub_insert attrs (t2.takeWhile notGt))]

end NbVite

namespace NbVite

/-! ### Properties of `addAttributeToJSXElement` -/

/-- Adding the attribute twice is the same as adding it once. -/
theorem addAttr_idem (v : String) (e : JExpr) :
    addAttributeToJSXElement v (addAttributeToJSXElement v e) =
      addAttributeToJSXElement v e := by
  cases e <;> simp only [addAttributeToJSXElement]
  rename_i attrs children
  by_cases h : hasDataAttr attrs
  · simp [h]
  · simp only [h, if_false]
    simp [addAttributeToJSXElement, hasDataAttr, dataAttrName]

/-- Adding the attribute never changes the node kind. -/
theorem addAttr_shape (v : String) (e : JExpr) :
    isJsxElementB (addAttributeToJSXElement v e) = isJsxElementB e ∧
    isJsxFragmentB (addAttributeToJSXElement v e) = isJsxFragmentB e := by
  cases e <;> simp only [addAttributeToJSXElement, isJsxElementB, isJsxFragmentB] <;>
    try exact ⟨trivial, trivial⟩
  rename_i attrs children
  by_cases h : hasDataAttr attrs <;> simp [h, isJsxElementB, isJsxFragmentB]

/-! ### The traversal does not create or remove identifier references -/

mutual

theorem visitExpr_mentions (v : String) (n : String) (e e' : JExpr) (o : Option VisitOutcome)
    (hv : visitExpr v e = (e', o)) : exprMentions n e' = exprMentions n e := by
  match e with
  | .jsxElement attrs children =>
      rcases hvl : visitExprList v children with ⟨cs, o2⟩
      simp only [visitExpr, hvl] at hv
      cases hv
      simp only [exprMentions]
      exact visitExprList_mentions v n children cs _ hvl
  | .jsxFragment children =>
      rcases hvl : visitExprList v children with ⟨cs, o2⟩
      simp only [visitExpr, hvl] at hv
      cases hv
      simp only [exprMentions]
      exact visitExprList_mentions v n children cs _ hvl
  | .arrowExpr body =>
      by_cases hj : isJsxElementB body
      · simp only [visitExpr, hj, if_true] at hv
        cases hv
        match body, hj with
        | .jsxElement attrs children, _ =>
          simp only [addAttributeToJSXElement]
          by_cases h : hasDataAttr attrs <;> simp [h, exprMentions]
      · rcases hb : visitExpr v body with ⟨b', o2⟩
        simp only [visitExpr, hj, if_false, hb] at hv
        cases hv
        simp only [exprMentions]
        exact visitExpr_mentions v n body b' _ hb
  | .arrowBlock body =>
      rcases hvl : visitStmtList v body with ⟨ss, o2⟩
      simp only [visitExpr, hvl] at hv
      cases hv
      simp only [exprMentions]
      exact visitStmtList_mentions v n body ss _ hvl
  | .funExpr body =>
      rcases hvl : visitStmtList v body with ⟨ss, o2⟩
      simp only [visitExpr, hvl] at hv
      cases hv
      simp only [exprMentions]
      exact visitStmtList_mentions v n body ss _ hvl
  | .identRef m =>
      simp only [visitExpr] at hv
      cases hv
      rfl
  | .otherExpr subs =>
      rcases hvl : visitExprList v subs with ⟨cs, o2⟩
      simp only [visitExpr, hvl] at hv
      cases hv
      simp only [exprMentions]
      exact visitExprList_mentions v n subs cs _ hvl

theorem visitExprList_mentions (v : String) (n : String) (l l' : JExprList)
    (o : Option VisitOutcome) (hv : visitExprList v l = (l', o)) :
    exprListMentions n l' = exprListMentions n l := by
  match l with
  | .nil =>
      simp only [visitExprList] at hv
      cases hv
      rfl
  | .cons e rest =>
      rcases hve : visitExpr v e with ⟨e1, o1⟩
      match o1 with
      | some o1' =>
          simp only [visitExprList, hve] at hv
          cases hv
          simp only [exprListMentions]
          rw [visitExpr_mentions v n e e1 _ hve]
      | none =>
          rcases hvr : visitExprList v rest with ⟨rest', o2⟩
          simp only [visitExprList, hve, hvr] at hv
          cases hv
          simp only [exprListMentions]
          rw [visitExpr_mentions v n e e1 _ hve, visitExprList_mentions v n rest rest' _ hvr]

theorem visitStmt_mentions (v : String) (n : String) (s s' : JStmt) (o : Option VisitOutcome)
    (hv : visitStmt v s = (s', o)) : stmtMentions n s' = stmtMentions n s := by
  match s with
  | .ret none =>
      simp only [visitStmt] at hv
      cases hv
      rfl
  | .ret (some e) =>
      by_cases hj : isJsxElementB e
      · simp only [visitStmt, hj, if_true] at hv
        cases hv
        match e, hj with
        | .jsxElement attrs children, _ =>
          simp only [addAttributeToJSXElement, stmtMentions]
          by_cases h : hasDataAttr attrs <;> simp [h, exprMentions]
      · by_cases hf : isJsxFragmentB e
        · simp only [visitStmt, hj, hf, if_false, if_true] at hv
          cases hv
          rfl
        · rcases hve : visitExpr v e with ⟨e1, o1⟩
          simp only [visitStmt, hj, hf, if_false, hve] at hv
          cases hv
          simp only [stmtMentions]
          exact visitExpr_mentions v n e e1 _ hve
  | .exprStmt e =>
      rcases hve : visitExpr v e with ⟨e1, o1⟩
      simp only [visitStmt, hve] at hv
      cases hv
      simp only [stmtMentions]
      exact visitExpr_mentions v n e e1 _ hve
  | .ifStmt test thenB elseB =>
      rcases hvt : visitExpr v test with ⟨t1, o1⟩
      match o1 with
      | some o1' =>
          simp only [visitStmt, hvt] at hv
          cases hv
          simp only [stmtMentions]
          rw [visitExpr_mentions v n test t1 _ hvt]
      | none =>
          rcases hvthen : visitStmtList v thenB with ⟨thn1, o2⟩
          match o2 with
          | some o2' =>
              simp only [visitStmt, hvt, hvthen] at hv
              cases hv
              simp only [stmtMentions]
              rw [visitExpr_mentions v n test t1 _ hvt,
                  visitStmtList_mentions v n thenB thn1 _ hvthen]
          | none =>
              rcases hvelse : visitStmtList v elseB with ⟨els1, o3⟩
              simp only [visitStmt, hvt, hvthen, hvelse] at hv
              cases hv
              simp only [stmtMentions]
              rw [visitExpr_mentions v n test t1 _ hvt,
                  visitStmtList_mentions v n thenB thn1 _ hvthen,
                  visitStmtList_mentions v n elseB els1 _ hvelse]

theorem visitStmtList_mentions (v : String) (n : String) (l l' : JStmtList)
    (o : Option VisitOutcome) (hv : visitStmtList v l = (l', o)) :
    stmtListMentions n l' = stmtListMentions n l := by
  match l with
  | .nil =>
      simp only [visitStmtList] at hv
      cases hv
      rfl
  | .cons s rest =>
      rcases hvs : visitStmt v s with ⟨s1, o1⟩
      match o1 with
      | some o1' =>
          simp only [visitStmtList, hvs] at hv
          cases hv
          simp only [stmtListMentions]
          rw [visitStmt_mentions v n s s1 _ hvs]
      | none =>
          rcases hvr : visitStmtList v rest with ⟨rest', o2⟩
          simp only [visitStmtList, hvs, hvr] at hv
          cases hv
          simp only [stmtListMentions]
          rw [visitStmt_mentions v n s s1 _ hvs, visitStmtList_mentions v n rest rest' _ hvr]

end

end NbVite

namespace NbVite

/-- The traversal never changes the kind of the node it returns. -/
theorem visitExpr_shape (v : String) (e e' : JExpr) (o : Option VisitOutcome)
    (hv : visitExpr v e = (e', o)) :
    isJsxElementB e' = isJsxElementB e ∧ isJsxFragmentB e' = isJsxFragmentB e := by
  match e with
  | .jsxElement attrs children =>
      rcases hvl : visitExprList v children with ⟨cs, o2⟩
      simp only [visitExpr, hvl] at hv
      cases hv
      exact ⟨rfl, rfl⟩
  | .jsxFragment children =>
      rcases hvl : visitExprList v children with ⟨cs, o2⟩
      simp only [visitExpr, hvl] at hv
      cases hv
      exact ⟨rfl, rfl⟩
  | .arrowExpr body =>
      by_cases hj : isJsxElementB body
      · simp only [visitExpr, hj, if_true] at hv
        cases hv
        exact ⟨rfl, rfl⟩
      · rcases hb : visitExpr v body with ⟨b', o2⟩
        simp only [visitExpr, hj, if_false, hb] at hv
        cases hv
        exact ⟨rfl, rfl⟩
  | .arrowBlock body =>
      rcases hvl : visitStmtList v body with ⟨ss, o2⟩
      simp only [visitExpr, hvl] at hv
      cases hv
      exact ⟨rfl, rfl⟩
  | .funExpr body =>
      rcases hvl : visitStmtList v body with ⟨ss, o2⟩
      simp only [visitExpr, hvl] at hv
      cases hv
      exact ⟨rfl, rfl⟩
  | .identRef m =>
      simp only [visitExpr] at hv
      cases hv
      exact ⟨rfl, rfl⟩
  | .otherExpr subs =>
      rcases hvl : visitExprList v subs with ⟨cs, o2⟩
      simp only [visitExpr, hvl] at hv
      cases hv
      exact ⟨rfl, rfl⟩

end NbVite

namespace NbVite

/-! ### The traversal is result-stable: re-visiting its output changes
nothing and reports the same outcome. -/

mutual

theorem visitExpr_idem (v : String) (e e' : JExpr) (o : Option VisitOutcome)
    (hv : visitExpr v e = (e', o)) : visitExpr v e' = (e', o) := by
  match e with
  | .jsxElement attrs children =>
      rcases hvl : visitExprList v children with ⟨cs, o2⟩
      simp only [visitExpr, hvl] at hv
      cases hv
      simp only [visitExpr, visitExprList_idem v children cs _ hvl]
  | .jsxFragment children =>
      rcases hvl : visitExprList v children with ⟨cs, o2⟩
      simp only [visitExpr, hvl] at hv
      cases hv
      simp only [visitExpr, visitExprList_idem v children cs _ hvl]
  | .arrowExpr body =>
      by_cases hj : isJsxElementB body
      · simp only [visitExpr, hj, if_true] at hv
        cases hv
        have hj2 : isJsxElementB (addAttributeToJSXElement v body) = true := by
          rw [(addAttr_shape v body).1]
          exact hj
        simp only [visitExpr, hj2, if_true, addAttr_idem]
      · rcases hb : visitExpr v body with ⟨b', o2⟩
        simp only [visitExpr, hj, if_false, hb] at hv
        cases hv
        have hj2 : isJsxElementB b' = false := by
          rw [(visitExpr_shape v body b' _ hb).1]
          simpa using hj
        simp only [visitExpr, hj2, if_false, visitExpr_idem v body b' _ hb]
        rfl
  | .arrowBlock body =>
      rcases hvl : visitStmtList v body with ⟨ss, o2⟩
      simp only [visitExpr, hvl] at hv
      cases hv
      simp only [visitExpr, visitStmtList_idem v body ss _ hvl]
  | .funExpr body =>
      rcases hvl : visitStmtList v body with ⟨ss, o2⟩
      simp only [visitExpr, hvl] at hv
      cases hv
      simp only [visitExpr, visitStmtList_idem v body ss _ hvl]
  | .identRef m =>
      simp only [visitExpr] at hv
      cases hv
      simp only [visitExpr]
  | .otherExpr subs =>
      rcases hvl : visitExprList v subs with ⟨cs, o2⟩
      simp only [visitExpr, hvl] at hv
      cases hv
      simp only [visitExpr, visitExprList_idem v subs cs _ hvl]

theorem visitExprList_idem (v : String) (l l' : JExprList) (o : Option VisitOutcome)
    (hv : visitExprList v l = (l', o)) : visitExprList v l' = (l', o) := by
  match l with
  | .nil =>
      simp only [visitExprList] at hv
      cases hv
      simp only [visitExprList]
  | .cons e rest =>
      rcases hve : visitExpr v e with ⟨e1, o1⟩
      match o1 with
      | some o1' =>
          simp only [visitExprList, hve] at hv
          cases hv
          simp only [visitExprList, visitExpr_idem v e e1 _ hve]
      | none =>
          rcases hvr : visitExprList v rest with ⟨rest', o2⟩
          simp only [visitExprList, hve, hvr] at hv
          cases hv
          simp only [visitExprList, visitExpr_idem v e e1 _ hve,
            visitExprList_idem v rest rest' _ hvr]

theorem visitStmt_idem (v : String) (s s' : JStmt) (o : Option VisitOutcome)
    (hv : visitStmt v s = (s', o)) : visitStmt v s' = (s', o) := by
  match s with
  | .ret none =>
      simp only [visitStmt] at hv
      cases hv
      simp only [visitStmt]
  | .ret (some e) =>
      by_cases hj : isJsxElementB e
      · simp only [visitStmt, hj, if_true] at hv
        cases hv
        have hj2 : isJsxElementB (addAttributeToJSXElement v e) = true := by
          rw [(addAttr_shape v e).1]
          exact hj
        simp only [visitStmt, hj2, if_true, addAttr_idem]
      · by_cases hf : isJsxFragmentB e
        · simp only [visitStmt, hj, hf, if_false, if_true] at hv
          cases hv
          simp only [visitStmt, hj, hf, if_false, if_true]
          rfl
        · rcases hve : visitExpr v e with ⟨e1, o1⟩
          simp only [visitStmt, hj, hf, if_false, hve] at hv
          cases hv
          have hj2 : isJsxElementB e1 = false := by
            rw [(visitExpr_shape v e e1 _ hve).1]
            simpa using hj
          have hf2 : isJsxFragmentB e1 = false := by
            rw [(visitExpr_shape v e e1 _ hve).2]
            simpa using hf
          simp only [visitStmt, hj2, hf2, if_false, visitExpr_idem v e e1 _ hve]
          rfl
  | .exprStmt e =>
      rcases hve : visitExpr v e with ⟨e1, o1⟩
      simp only [visitStmt, hve] at hv
      cases hv
      simp only [visitStmt, visitExpr_idem v e e1 _ hve]
  | .ifStmt test thenB elseB =>
      rcases hvt : visitExpr v test with ⟨t1, o1⟩
      match o1 with
      | some o1' =>
          simp only [visitStmt, hvt] at hv
          cases hv
          simp only [visitStmt, visitExpr_idem v test t1 _ hvt]
      | none =>
          rcases hvthen : visitStmtList v thenB with ⟨thn1, o2⟩
          match o2 with
          | some o2' =>
              simp only [visitStmt, hvt, hvthen] at hv
              cases hv
              simp only [visitStmt, visitExpr_idem v test t1 _ hvt,
                visitStmtList_idem v thenB thn1 _ hvthen]
          | none =>
              rcases hvelse : visitStmtList v elseB with ⟨els1, o3⟩
              simp only [visitStmt, hvt, hvthen, hvelse] at hv
              cases hv
              simp only [visitStmt, visitExpr_idem v test t1 _ hvt,
                visitStmtList_idem v thenB thn1 _ hvthen,
                visitStmtList_idem v elseB els1 _ hvelse]

theorem visitStmtList_idem (v : String) (l l' : JStmtList) (o : Option VisitOutcome)
    (hv : visitStmtList v l = (l', o)) : visitStmtList v l' = (l', o) := by
  match l with
  | .nil =>
      simp only [visitStmtList] at hv
      cases hv
      simp only [visitStmtList]
  | .cons s rest =>
      rcases hvs : visitStmt v s with ⟨s1, o1⟩
      match o1 with
      | some o1' =>
          simp only [visitStmtList, hvs] at hv
          cases hv
          simp only [visitStmtList, visitStmt_idem v s s1 _ hvs]
      | none =>
          rcases hvr : visitStmtList v rest with ⟨rest', o2⟩
          simp only [visitStmtList, hvs, hvr] at hv
          cases hv
          simp only [visitStmtList, visitStmt_idem v s s1 _ hvs,
            visitStmtList_idem v rest rest' _ hvr]

end

end NbVite

namespace NbVite

/-! ### Module-pass idempotence infrastructure

`topFix v` is what one firing of a module visitor does to the item it
rewrites; the pass only ever replaces an item by its `topFix` image, so
a second pass over an already-fixed module is the identity. -/

/-- The per-item rewrite a firing visitor performs. -/
def topFix (v : String) : TopLevel → TopLevel
  | .varDecl nm (some e) => .varDecl nm (some (transformFunctionBody v e))
  | .exportDefaultFun body => .exportDefaultFun (visitStmtList v body).1
  | .exportDefaultExpr (.arrowExpr b) =>
      if isJsxElementB b then
        .exportDefaultExpr (.arrowExpr (addAttributeToJSXElement v b))
      else
        .exportDefaultExpr (transformFunctionBody v (.arrowExpr b))
  | .exportDefaultExpr (.arrowBlock ss) =>
      .exportDefaultExpr (transformFunctionBody v (.arrowBlock ss))
  | t => t

/-- The per-item part of `referencedInExportDefault`. -/
def topMentions (n : String) : TopLevel → Bool
  | .exportDefaultFun body => stmtListMentions n body
  | .exportDefaultExpr e => exprMentions n e
  | _ => false

/-- The name and function-valuedness of a declarator, `none` for
anything else: all that `findBindingIdx` and the identifier-export
branch inspect. -/
def varDeclKey : TopLevel → Option (String × Bool)
  | .varDecl nm init => some (nm, isFunctionValued init)
  | _ => none

/-- Whether the visitor fired at an item determines `hasModifications`;
for a declarator it is the source's reference-in-export-default test. -/
def fireCond (m : JModule) : TopLevel → Bool
  | .varDecl nm init => isFunctionValued init && referencedInExportDefault m nm
  | .exportDefaultFun _ => true
  | .exportDefaultExpr (.arrowExpr _) => true
  | .exportDefaultExpr (.arrowBlock _) => true
  | _ => false

/-- An item of the evolving module is the original or its `topFix`. -/
def TopRel (v : String) (t0 t1 : TopLevel) : Prop := t1 = t0 ∨ t1 = topFix v t0

/-- The module obtained part-way through a pass, related pointwise to
the module the pass started from. -/
def Evolves (v : String) (m0 m : JModule) : Prop := List.Forall₂ (TopRel v) m0 m

/-- Positions `< i` whose visitor would fire already hold their
`topFix` fixpoint. -/
def ProcFixed (v : String) (m : JModule) (i : Nat) : Prop :=
  ∀ j t, j < i → m.get? j = some t → fireCond m t = true → topFix v t = t

/-- Would any visitor between `i` (inclusive) and the end fire? -/
def anyFiredFrom (v : String) (m : JModule) : Nat → Nat → Bool
  | 0, _ => false
  | fuel + 1, i =>
      if i < m.length then
        ((visitTopAt v m i).2 || anyFiredFrom v m fuel (i + 1))
      else
        false

theorem tfb_idem (v : String) (e : JExpr) :
    transformFunctionBody v (transformFunctionBody v e) = transformFunctionBody v e := by
  cases e with
  | arrowExpr body =>
      rcases h : visitExpr v body with ⟨b, o⟩
      simp only [transformFunctionBody, h, visitExpr_idem v body b o h]
  | arrowBlock body =>
      rcases h : visitStmtList v body with ⟨ss, o⟩
      simp only [transformFunctionBody, h, visitStmtList_idem v body ss o h]
  | funExpr body =>
      rcases h : visitStmtList v body with ⟨ss, o⟩
      simp only [transformFunctionBody, h, visitStmtList_idem v body ss o h]
  | jsxElement attrs children => rfl
  | jsxFragment children => rfl
  | identRef n => rfl
  | otherExpr subs => rfl

theorem tfb_mentions (v n : String) (e : JExpr) :
    exprMentions n (transformFunctionBody v e) = exprMentions n e := by
  cases e with
  | arrowExpr body =>
      rcases h : visitExpr v body with ⟨b, o⟩
      simp only [transformFunctionBody, h, exprMentions]
      exact visitExpr_mentions v n body b o h
  | arrowBlock body =>
      rcases h : visitStmtList v body with ⟨ss, o⟩
      simp only [transformFunctionBody, h, exprMentions]
      exact visitStmtList_mentions v n body ss o h
  | funExpr body =>
      rcases h : visitStmtList v body with ⟨ss, o⟩
      simp only [transformFunctionBody, h, exprMentions]
      exact visitStmtList_mentions v n body ss o h
  | jsxElement attrs children => rfl
  | jsxFragment children => rfl
  | identRef m => rfl
  | otherExpr subs => rfl

theorem tfb_funVal (v : String) (e : JExpr) :
    isFunctionValued (some (transformFunctionBody v e)) = isFunctionValued (some e) := by
  cases e <;> rfl

theorem addAttr_mentions (v n : String) (e : JExpr) :
    exprMentions n (addAttributeToJSXElement v e) = exprMentions n e := by
  cases e <;> simp only [addAttributeToJSXElement]
  rename_i attrs children
  by_cases h : hasDataAttr attrs <;> simp [h, exprMentions]

theorem updateVarInit_eq_topFix (v nm : String) (init : Option JExpr) :
    updateVarInit v (.varDecl nm init) = topFix v (.varDecl nm init) := by
  cases init <;> rfl

theorem updateVarInit_either (v : String) (t : TopLevel) :
    updateVarInit v t = t ∨ updateVarInit v t = topFix v t := by
  cases t with
  | varDecl nm init =>
      cases init with
      | none => exact Or.inl rfl
      | some e => exact Or.inr rfl
  | exportDefaultFun body => exact Or.inl rfl
  | exportDefaultExpr e => exact Or.inl rfl
  | otherTop => exact Or.inl rfl

theorem topFix_idem (v : String) (t : TopLevel) : topFix v (topFix v t) = topFix v t := by
  cases t with
  | varDecl nm init =>
      cases init with
      | none => rfl
      | some e => simp only [topFix, tfb_idem]
  | exportDefaultFun body =>
      rcases h : visitStmtList v body with ⟨ss, o⟩
      simp only [topFix, h, visitStmtList_idem v body ss o h]
  | exportDefaultExpr e =>
      cases e with
      | arrowExpr b =>
          by_cases hel : isJsxElementB b
          · have hel2 : isJsxElementB (addAttributeToJSXElement v b) = true := by
              rw [(addAttr_shape v b).1]; exact hel
            simp only [topFix, hel, if_true, hel2, addAttr_idem]
          · rcases hb : visitExpr v b with ⟨b1, o⟩
            have hel2 : isJsxElementB b1 = false := by
              rw [(visitExpr_shape v b b1 o hb).1]; simpa using hel
            have h1 : topFix v (.exportDefaultExpr (.arrowExpr b)) =
                .exportDefaultExpr (.arrowExpr b1) := by
              simp only [topFix, hel, if_false, transformFunctionBody, hb]
              rfl
            rw [h1]
            simp only [topFix, hel2, transformFunctionBody, visitExpr_idem v b b1 o hb]
            rfl
      | arrowBlock ss =>
          rcases h : visitStmtList v ss with ⟨ss1, o⟩
          simp only [topFix, transformFunctionBody, h, visitStmtList_idem v ss ss1 o h]
      | jsxElement attrs children => rfl
      | jsxFragment children => rfl
      | funExpr body => rfl
      | identRef n => rfl
      | otherExpr subs => rfl
  | otherTop => rfl

theorem topMentions_topFix (v n : String) (t : TopLevel) :
    topMentions n (topFix v t) = topMentions n t := by
  cases t with
  | varDecl nm init => cases init <;> rfl
  | exportDefaultFun body =>
      rcases h : visitStmtList v body with ⟨ss, o⟩
      simp only [topFix, h, topMentions]
      exact visitStmtList_mentions v n body ss o h
  | exportDefaultExpr e =>
      cases e with
      | arrowExpr b =>
          by_cases hel : isJsxElementB b
          · simp only [topFix, hel, if_true, topMentions, exprMentions, addAttr_mentions]
          · simp [topFix, hel, topMentions, tfb_mentions]
      | arrowBlock ss =>
          simp only [topFix, topMentions, tfb_mentions]
      | jsxElement attrs children => rfl
      | jsxFragment children => rfl
      | funExpr body => rfl
      | identRef n => rfl
      | otherExpr subs => rfl
  | otherTop => rfl

theorem varDeclKey_topFix (v : String) (t : TopLevel) :
    varDeclKey (topFix v t) = varDeclKey t := by
  cases t with
  | varDecl nm init =>
      cases init with
      | none => rfl
      | some e => simp only [topFix, varDeclKey, tfb_funVal]
  | exportDefaultFun body => rfl
  | exportDefaultExpr e =>
      cases e with
      | arrowExpr b => by_cases hel : isJsxElementB b <;> simp [topFix, hel, varDeclKey]
      | arrowBlock ss => rfl
      | jsxElement attrs children => rfl
      | jsxFragment children => rfl
      | funExpr body => rfl
      | identRef n => rfl
      | otherExpr subs => rfl
  | otherTop => rfl

theorem refExport_nil (n : String) : referencedInExportDefault [] n = false := rfl

theorem refExport_cons (t : TopLevel) (rest : JModule) (n : String) :
    referencedInExportDefault (t :: rest) n =
      (topMentions n t || referencedInExportDefault rest n) := by
  cases t <;> rfl

end NbVite

namespace NbVite

theorem modifyAt_length (f : TopLevel → TopLevel) :
    ∀ (i : Nat) (m : JModule), (modifyAt f i m).length = m.length := by
  intro i
  induction i with
  | zero => intro m; cases m <;> rfl
  | succ i ih =>
      intro m
      cases m with
      | nil => rfl
      | cons t rest => simp only [modifyAt, List.length_cons, ih]

theorem modifyAt_id (f : TopLevel → TopLevel) :
    ∀ (i : Nat) (m : JModule) (t : TopLevel),
      m.get? i = some t → f t = t → modifyAt f i m = m := by
  intro i
  induction i with
  | zero =>
      intro m t hg hf
      cases m with
      | nil => cases hg
      | cons t0 rest =>
          simp only [List.get?] at hg
          cases hg
          simp only [modifyAt, hf]
  | succ i ih =>
      intro m t hg hf
      cases m with
      | nil => cases hg
      | cons t0 rest =>
          simp only [List.get?] at hg
          simp only [modifyAt, ih rest t hg hf]

theorem modifyAt_get_self (f : TopLevel → TopLevel) :
    ∀ (i : Nat) (m : JModule) (t : TopLevel),
      m.get? i = some t → (modifyAt f i m).get? i = some (f t) := by
  intro i
  induction i with
  | zero =>
      intro m t hg
      cases m with
      | nil => cases hg
      | cons t0 rest =>
          simp only [List.get?] at hg
          cases hg
          rfl
  | succ i ih =>
      intro m t hg
      cases m with
      | nil => cases hg
      | cons t0 rest =>
          simp only [List.get?] at hg
          simp only [modifyAt, List.get?]
          exact ih rest t hg

theorem modifyAt_get_ne (f : TopLevel → TopLevel) :
    ∀ (i j : Nat) (m : JModule), j ≠ i → (modifyAt f i m).get? j = m.get? j := by
  intro i
  induction i with
  | zero =>
      intro j m hne
      cases m with
      | nil => rfl
      | cons t0 rest =>
          cases j with
          | zero => exact absurd rfl hne
          | succ j => rfl
  | succ i ih =>
      intro j m hne
      cases m with
      | nil => rfl
      | cons t0 rest =>
          cases j with
          | zero => rfl
          | succ j =>
              simp only [modifyAt, List.get?]
              exact ih j rest (by omega)

theorem modifyAt_congr (f g : TopLevel → TopLevel) :
    ∀ (i : Nat) (m : JModule) (t : TopLevel),
      m.get? i = some t → f t = g t → modifyAt f i m = modifyAt g i m := by
  intro i
  induction i with
  | zero =>
      intro m t hg hfg
      cases m with
      | nil => rfl
      | cons t0 rest =>
          simp only [List.get?] at hg
          cases hg
          simp only [modifyAt, hfg]
  | succ i ih =>
      intro m t hg hfg
      cases m with
      | nil => rfl
      | cons t0 rest =>
          simp only [List.get?] at hg
          simp only [modifyAt, ih rest t hg hfg]

theorem modifyAt_forall₂ (v : String) (f : TopLevel → TopLevel)
    (hf : ∀ a b, TopRel v a b → TopRel v a (f b)) :
    ∀ (m0 m : JModule), Evolves v m0 m → ∀ i, Evolves v m0 (modifyAt f i m) := by
  intro m0 m h
  induction h with
  | nil => intro i; cases i <;> exact List.Forall₂.nil
  | cons hrel hrest ih =>
      intro i
      cases i with
      | zero => exact List.Forall₂.cons (hf _ _ hrel) hrest
      | succ i => exact List.Forall₂.cons hrel (ih i)

theorem topRel_topFix (v : String) (a b : TopLevel) (h : TopRel v a b) :
    TopRel v a (topFix v b) := by
  rcases h with h | h
  · subst h; exact Or.inr rfl
  · subst h; exact Or.inr (topFix_idem v a)

theorem topRel_updateVarInit (v : String) (a b : TopLevel) (h : TopRel v a b) :
    TopRel v a (updateVarInit v b) := by
  rcases updateVarInit_either v b with he | he
  · rw [he]; exact h
  · rw [he]; exact topRel_topFix v a b h

theorem evolves_refl (v : String) (m : JModule) : Evolves v m m := by
  induction m with
  | nil => exact List.Forall₂.nil
  | cons t rest ih => exact List.Forall₂.cons (Or.inl rfl) ih

theorem evolves_length (v : String) (m0 m : JModule) (h : Evolves v m0 m) :
    m.length = m0.length :=
  h.length_eq.symm

theorem evolves_get_some (v : String) (m0 m : JModule) (h : Evolves v m0 m) :
    ∀ (i : Nat) (t0 : TopLevel), m0.get? i = some t0 →
      ∃ t1, m.get? i = some t1 ∧ TopRel v t0 t1 := by
  induction h with
  | nil => intro i t0 hg; cases hg
  | cons hrel hrest ih =>
      intro i t0 hg
      cases i with
      | zero =>
          simp only [List.get?] at hg
          cases hg
          exact ⟨_, rfl, hrel⟩
      | succ i =>
          simp only [List.get?] at hg ⊢
          exact ih i t0 hg

theorem evolves_get_some' (v : String) (m0 m : JModule) (h : Evolves v m0 m) :
    ∀ (i : Nat) (t1 : TopLevel), m.get? i = some t1 →
      ∃ t0, m0.get? i = some t0 ∧ TopRel v t0 t1 := by
  induction h with
  | nil => intro i t1 hg; cases hg
  | cons hrel hrest ih =>
      intro i t1 hg
      cases i with
      | zero =>
          simp only [List.get?] at hg
          cases hg
          exact ⟨_, rfl, hrel⟩
      | succ i =>
          simp only [List.get?] at hg ⊢
          exact ih i t1 hg

theorem refExport_evolves (v : String) (m0 m : JModule) (h : Evolves v m0 m) (n : String) :
    referencedInExportDefault m n = referencedInExportDefault m0 n := by
  induction h with
  | nil => rfl
  | cons hrel hrest ih =>
      rename_i a b l1 l2
      rw [refExport_cons, refExport_cons, ih]
      rcases hrel with he | he
      · rw [he]
      · rw [he, topMentions_topFix]

theorem findBindingIdx_cons (t : TopLevel) (rest : JModule) (n : String) :
    findBindingIdx (t :: rest) n =
      (match varDeclKey t with
       | some (nm, _) => if nm = n then some 0 else (findBindingIdx rest n).map (· + 1)
       | none => (findBindingIdx rest n).map (· + 1)) := by
  cases t <;> rfl

theorem findBindingIdx_evolves (v : String) (m0 m : JModule) (h : Evolves v m0 m) (n : String) :
    findBindingIdx m n = findBindingIdx m0 n := by
  induction h with
  | nil => rfl
  | cons hrel hrest ih =>
      rename_i a b l1 l2
      rw [findBindingIdx_cons, findBindingIdx_cons, ih]
      have hk : varDeclKey b = varDeclKey a := by
        rcases hrel with he | he
        · rw [he]
        · rw [he, varDeclKey_topFix]
      rw [hk]

theorem fireCond_congr (m1 m2 : JModule)
    (h : ∀ n, referencedInExportDefault m1 n = referencedInExportDefault m2 n)
    (t : TopLevel) : fireCond m1 t = fireCond m2 t := by
  cases t with
  | varDecl nm init => simp only [fireCond, h]
  | exportDefaultFun body => rfl
  | exportDefaultExpr e => cases e <;> rfl
  | otherTop => rfl

theorem findBindingIdx_spec (n : String) :
    ∀ (m : JModule) (j : Nat), findBindingIdx m n = some j →
      ∃ init, m.get? j = some (.varDecl n init) := by
  intro m
  induction m with
  | nil => intro j h; cases h
  | cons t rest ih =>
      intro j h
      cases t with
      | varDecl nm init =>
          simp only [findBindingIdx] at h
          by_cases he : nm = n
          · simp only [he, if_true] at h
            cases h
            exact ⟨init, by subst he; rfl⟩
          · simp only [he, if_false, Option.map_eq_some'] at h
            obtain ⟨j', hj', rfl⟩ := h
            obtain ⟨init', hi⟩ := ih j' hj'
            exact ⟨init', hi⟩
      | exportDefaultFun body =>
          simp only [findBindingIdx, Option.map_eq_some'] at h
          obtain ⟨j', hj', rfl⟩ := h
          obtain ⟨init', hi⟩ := ih j' hj'
          exact ⟨init', hi⟩
      | exportDefaultExpr e =>
          simp only [findBindingIdx, Option.map_eq_some'] at h
          obtain ⟨j', hj', rfl⟩ := h
          obtain ⟨init', hi⟩ := ih j' hj'
          exact ⟨init', hi⟩
      | otherTop =>
          simp only [findBindingIdx, Option.map_eq_some'] at h
          obtain ⟨j', hj', rfl⟩ := h
          obtain ⟨init', hi⟩ := ih j' hj'
          exact ⟨init', hi⟩

theorem refExport_of_get (m : JModule) (i : Nat) (e : JExpr) (n : String)
    (hg : m.get? i = some (.exportDefaultExpr e)) (hm : exprMentions n e = true) :
    referencedInExportDefault m n = true := by
  induction m generalizing i with
  | nil => cases hg
  | cons t rest ih =>
      cases i with
      | zero =>
          simp only [List.get?] at hg
          cases hg
          rw [refExport_cons]
          simp [topMentions, hm]
      | succ i =>
          simp only [List.get?] at hg
          rw [refExport_cons]
          simp [ih i hg]

theorem get_some_lt (m : JModule) (i : Nat) (t : TopLevel) (hg : m.get? i = some t) :
    i < m.length := by
  by_contra hcon
  rw [List.get?_eq_none.2 (by omega)] at hg
  cases hg

end NbVite

namespace NbVite

theorem topRel_varDecl (v nm : String) (init : Option JExpr) (t1 : TopLevel)
    (hrel : TopRel v (.varDecl nm init) t1) :
    ∃ init1, t1 = .varDecl nm init1 ∧ isFunctionValued init1 = isFunctionValued init := by
  rcases hrel with he | he
  · exact ⟨init, he, rfl⟩
  · subst he
    cases init with
    | none => exact ⟨none, rfl, rfl⟩
    | some e => exact ⟨some (transformFunctionBody v e), rfl, tfb_funVal v e⟩

theorem topRel_fix_id (v : String) (t0 t1 : TopLevel) (hrel : TopRel v t0 t1)
    (hid : topFix v t0 = t0) : t1 = t0 := by
  rcases hrel with he | he
  · exact he
  · rw [he, hid]

theorem visitTopAt_snd_fun (v : String) (m : JModule) (i : Nat) (body : JStmtList)
    (hg : m.get? i = some (.exportDefaultFun body)) : (visitTopAt v m i).2 = true := by
  simp only [visitTopAt, hg]

theorem visitTopAt_snd_arrow (v : String) (m : JModule) (i : Nat) (b : JExpr)
    (hg : m.get? i = some (.exportDefaultExpr (.arrowExpr b))) :
    (visitTopAt v m i).2 = true := by
  simp only [visitTopAt, hg]
  by_cases hel : isJsxElementB b <;> simp [hel]

theorem visitTopAt_snd_arrowBlock (v : String) (m : JModule) (i : Nat) (ss : JStmtList)
    (hg : m.get? i = some (.exportDefaultExpr (.arrowBlock ss))) :
    (visitTopAt v m i).2 = true := by
  simp only [visitTopAt, hg]

theorem firedAt_evolves (v : String) (m0 m : JModule) (h : Evolves v m0 m) (i : Nat) :
    (visitTopAt v m i).2 = (visitTopAt v m0 i).2 := by
  cases hg0 : m0.get? i with
  | none =>
      have hg : m.get? i = none := by
        rw [List.get?_eq_none] at hg0 ⊢
        rw [evolves_length v m0 m h]
        exact hg0
      simp only [visitTopAt, hg0, hg]
  | some t0 =>
      obtain ⟨t1, hg1, hrel⟩ := evolves_get_some v m0 m h i t0 hg0
      cases t0 with
      | varDecl nm init =>
          obtain ⟨init1, rfl, hfv⟩ := topRel_varDecl v nm init t1 hrel
          simp only [visitTopAt, hg0, hg1]
          have hc : (isFunctionValued init1 && referencedInExportDefault m nm)
              = (isFunctionValued init && referencedInExportDefault m0 nm) := by
            rw [hfv, refExport_evolves v m0 m h]
          rw [hc]
          by_cases hb : (isFunctionValued init && referencedInExportDefault m0 nm) = true <;>
            simp [hb]
      | exportDefaultFun body =>
          have h1 : (visitTopAt v m i).2 = true := by
            rcases hrel with he | he
            · subst he; exact visitTopAt_snd_fun v m i body hg1
            · rw [he] at hg1
              simp only [topFix] at hg1
              exact visitTopAt_snd_fun v m i _ hg1
          rw [h1, visitTopAt_snd_fun v m0 i body hg0]
      | exportDefaultExpr e =>
          cases e with
          | arrowExpr b =>
              have h1 : (visitTopAt v m i).2 = true := by
                rcases hrel with he | he
                · subst he; exact visitTopAt_snd_arrow v m i b hg1
                · rw [he] at hg1
                  by_cases hel : isJsxElementB b
                  · simp only [topFix, hel, if_true] at hg1
                    exact visitTopAt_snd_arrow v m i _ hg1
                  · have ht : topFix v (.exportDefaultExpr (.arrowExpr b)) =
                        .exportDefaultExpr (.arrowExpr (visitExpr v b).1) := by
                      simp [topFix, hel, transformFunctionBody]
                    rw [ht] at hg1
                    exact visitTopAt_snd_arrow v m i _ hg1
              rw [h1, visitTopAt_snd_arrow v m0 i b hg0]
          | arrowBlock ss =>
              have h1 : (visitTopAt v m i).2 = true := by
                rcases hrel with he | he
                · subst he; exact visitTopAt_snd_arrowBlock v m i ss hg1
                · rw [he] at hg1
                  simp only [topFix, transformFunctionBody] at hg1
                  exact visitTopAt_snd_arrowBlock v m i _ hg1
              rw [h1, visitTopAt_snd_arrowBlock v m0 i ss hg0]
          | identRef n =>
              have ht1 : t1 = .exportDefaultExpr (.identRef n) :=
                topRel_fix_id v _ t1 hrel rfl
              subst ht1
              simp only [visitTopAt, hg0, hg1]
              rw [findBindingIdx_evolves v m0 m h]
              cases hb : findBindingIdx m0 n with
              | none => rfl
              | some j =>
                  simp only []
                  cases hgj0 : m0.get? j with
                  | none =>
                      have hgj : m.get? j = none := by
                        rw [List.get?_eq_none] at hgj0 ⊢
                        rw [evolves_length v m0 m h]
                        exact hgj0
                      simp only [hgj0, hgj]
                  | some tj0 =>
                      obtain ⟨tj1, hgj1, hrelj⟩ := evolves_get_some v m0 m h j tj0 hgj0
                      cases tj0 with
                      | varDecl nmj initj =>
                          obtain ⟨initj1, rfl, hfvj⟩ := topRel_varDecl v nmj initj tj1 hrelj
                          simp only [hgj0, hgj1, hfvj]
                          by_cases hfb : isFunctionValued initj = true <;> simp [hfb]
                      | exportDefaultFun bodyj =>
                          have htj : tj1 = .exportDefaultFun (visitStmtList v bodyj).1 ∨
                              tj1 = .exportDefaultFun bodyj := by
                            rcases hrelj with he | he
                            · exact Or.inr he
                            · exact Or.inl (by rw [he]; rfl)
                          rcases htj with he | he <;> subst he <;> simp only [hgj0, hgj1]
                      | exportDefaultExpr ej =>
                          have hkey : varDeclKey tj1 = none := by
                            rcases hrelj with he | he
                            · rw [he]; rfl
                            · rw [he, varDeclKey_topFix]; rfl
                          cases tj1 with
                          | varDecl a b => cases hkey
                          | exportDefaultFun a => simp only [hgj0, hgj1]
                          | exportDefaultExpr a => simp only [hgj0, hgj1]
                          | otherTop => simp only [hgj0, hgj1]
                      | otherTop =>
                          have htj : tj1 = .otherTop := topRel_fix_id v _ tj1 hrelj rfl
                          subst htj
                          simp only [hgj0, hgj1]
          | jsxElement attrs children =>
              have ht1 : t1 = _ := topRel_fix_id v _ t1 hrel rfl
              subst ht1
              simp only [visitTopAt, hg0, hg1]
          | jsxFragment children =>
              have ht1 : t1 = _ := topRel_fix_id v _ t1 hrel rfl
              subst ht1
              simp only [visitTopAt, hg0, hg1]
          | funExpr body =>
              have ht1 : t1 = _ := topRel_fix_id v _ t1 hrel rfl
              subst ht1
              simp only [visitTopAt, hg0, hg1]
          | otherExpr subs =>
              have ht1 : t1 = _ := topRel_fix_id v _ t1 hrel rfl
              subst ht1
              simp only [visitTopAt, hg0, hg1]
      | otherTop =>
          have ht1 : t1 = .otherTop := topRel_fix_id v _ t1 hrel rfl
          subst ht1
          simp only [visitTopAt, hg0, hg1]

theorem anyFiredFrom_evolves (v : String) (m0 m : JModule) (h : Evolves v m0 m) :
    ∀ (fuel i : Nat), anyFiredFrom v m fuel i = anyFiredFrom v m0 fuel i := by
  intro fuel
  induction fuel with
  | zero => intro i; rfl
  | succ fuel ih =>
      intro i
      simp only [anyFiredFrom, evolves_length v m0 m h, firedAt_evolves v m0 m h i, ih]

end NbVite

namespace NbVite

theorem procFixed_succ_of_ge (v : String) (m : JModule) (i : Nat)
    (hproc : ProcFixed v m i) (hlen : m.length ≤ i) : ProcFixed v m (i + 1) := by
  intro j t hj hgj hfc
  have hjl := get_some_lt m j t hgj
  exact hproc j t (by omega) hgj hfc

theorem procFixed_noop (v : String) (m : JModule) (i : Nat) (hproc : ProcFixed v m i)
    (hcfi : ∀ t', m.get? i = some t' → fireCond m t' = false) :
    ProcFixed v m (i + 1) := by
  intro j t hj hgj hfc
  by_cases hji : j = i
  · subst hji
    rw [hcfi t hgj] at hfc
    exact absurd hfc Bool.false_ne_true
  · exact hproc j t (by omega) hgj hfc

theorem procFixed_after_fix (v : String) (m0 m : JModule) (i k : Nat) (tk : TopLevel)
    (hev : Evolves v m0 m) (hproc : ProcFixed v m i) (hg : m.get? k = some tk)
    (hcfi : ∀ t', m.get? i = some t' → i ≠ k → fireCond m t' = false) :
    ProcFixed v (modifyAt (topFix v) k m) (i + 1) := by
  have hev1 : Evolves v m0 (modifyAt (topFix v) k m) :=
    modifyAt_forall₂ v (topFix v) (topRel_topFix v) m0 m hev k
  have hrefs : ∀ n', referencedInExportDefault (modifyAt (topFix v) k m) n'
      = referencedInExportDefault m n' := fun n' => by
    rw [refExport_evolves v m0 _ hev1 n', refExport_evolves v m0 m hev n']
  intro j t' hj hgj hfc
  by_cases hjk : j = k
  · subst hjk
    rw [modifyAt_get_self (topFix v) j m tk hg] at hgj
    cases hgj
    exact topFix_idem v tk
  · rw [modifyAt_get_ne (topFix v) k j m hjk] at hgj
    have hfc' : fireCond m t' = true := by
      rw [← fireCond_congr (modifyAt (topFix v) k m) m hrefs t']
      exact hfc
    by_cases hji : j = i
    · subst hji
      rw [hcfi t' hgj hjk] at hfc'
      exact absurd hfc' Bool.false_ne_true
    · exact hproc j t' (by omega) hgj hfc'

theorem visitTopAt_step (v : String) (m0 m : JModule) (i : Nat) (m1 : JModule) (fired : Bool)
    (hev : Evolves v m0 m) (hproc : ProcFixed v m i)
    (hstep : visitTopAt v m i = (m1, fired)) :
    Evolves v m0 m1 ∧ ProcFixed v m1 (i + 1) := by
  cases hg : m.get? i with
  | none =>
      simp only [visitTopAt, hg] at hstep
      cases hstep
      refine ⟨hev, procFixed_succ_of_ge v m i hproc ?_⟩
      rw [← List.get?_eq_none]
      exact hg
  | some t =>
      cases t with
      | varDecl nm init =>
          by_cases hc : (isFunctionValued init && referencedInExportDefault m nm) = true
          · simp only [visitTopAt, hg] at hstep
            rw [if_pos hc] at hstep
            cases hstep
            have hcong : modifyAt (updateVarInit v) i m = modifyAt (topFix v) i m :=
              modifyAt_congr _ _ i m _ hg (updateVarInit_eq_topFix v nm init)
            rw [hcong]
            exact ⟨modifyAt_forall₂ v (topFix v) (topRel_topFix v) m0 m hev i,
              procFixed_after_fix v m0 m i i _ hev hproc hg
                (fun t' _ hne => absurd rfl hne)⟩
          · simp only [visitTopAt, hg] at hstep
            rw [if_neg hc] at hstep
            cases hstep
            refine ⟨hev, procFixed_noop v m i hproc ?_⟩
            intro t' hgt'
            rw [hg] at hgt'
            cases hgt'
            have hfalse : (isFunctionValued init && referencedInExportDefault m nm) = false := by
              revert hc
              cases isFunctionValued init && referencedInExportDefault m nm <;> simp
            simp only [fireCond]
            exact hfalse
      | exportDefaultFun body =>
          simp only [visitTopAt, hg] at hstep
          cases hstep
          have hcong : modifyAt (fun _ => TopLevel.exportDefaultFun (visitStmtList v body).1) i m
              = modifyAt (topFix v) i m :=
            modifyAt_congr _ _ i m _ hg rfl
          rw [hcong]
          exact ⟨modifyAt_forall₂ v (topFix v) (topRel_topFix v) m0 m hev i,
            procFixed_after_fix v m0 m i i _ hev hproc hg
              (fun t' _ hne => absurd rfl hne)⟩
      | exportDefaultExpr e =>
          cases e with
          | arrowExpr b =>
              by_cases hel : isJsxElementB b = true
              · simp only [visitTopAt, hg] at hstep
                rw [if_pos hel] at hstep
                cases hstep
                have hcong : modifyAt (fun _ => TopLevel.exportDefaultExpr
                      (.arrowExpr (addAttributeToJSXElement v b))) i m
                    = modifyAt (topFix v) i m :=
                  modifyAt_congr _ _ i m _ hg (by simp [topFix, hel])
                rw [hcong]
                exact ⟨modifyAt_forall₂ v (topFix v) (topRel_topFix v) m0 m hev i,
                  procFixed_after_fix v m0 m i i _ hev hproc hg
                    (fun t' _ hne => absurd rfl hne)⟩
              · simp only [visitTopAt, hg] at hstep
                rw [if_neg hel] at hstep
                cases hstep
                have hcong : modifyAt (fun _ => TopLevel.exportDefaultExpr
                      (transformFunctionBody v (.arrowExpr b))) i m
                    = modifyAt (topFix v) i m :=
                  modifyAt_congr _ _ i m _ hg (by simp [topFix, hel])
                rw [hcong]
                exact ⟨modifyAt_forall₂ v (topFix v) (topRel_topFix v) m0 m hev i,
                  procFixed_after_fix v m0 m i i _ hev hproc hg
                    (fun t' _ hne => absurd rfl hne)⟩
          | arrowBlock ss =>
              simp only [visitTopAt, hg] at hstep
              cases hstep
              have hcong : modifyAt (fun _ => TopLevel.exportDefaultExpr
                    (transformFunctionBody v (.arrowBlock ss))) i m
                  = modifyAt (topFix v) i m :=
                modifyAt_congr _ _ i m _ hg rfl
              rw [hcong]
              exact ⟨modifyAt_forall₂ v (topFix v) (topRel_topFix v) m0 m hev i,
                procFixed_after_fix v m0 m i i _ hev hproc hg
                  (fun t' _ hne => absurd rfl hne)⟩
          | identRef n =>
              cases hb : findBindingIdx m n with
              | none =>
                  simp only [visitTopAt, hg, hb] at hstep
                  cases hstep
                  refine ⟨hev, procFixed_noop v m i hproc ?_⟩
                  intro t' hgt'
                  rw [hg] at hgt'
                  cases hgt'
                  rfl
              | some j =>
                  cases hgj : m.get? j with
                  | none =>
                      simp only [visitTopAt, hg, hb, hgj] at hstep
                      cases hstep
                      refine ⟨hev, procFixed_noop v m i hproc ?_⟩
                      intro t' hgt'
                      rw [hg] at hgt'
                      cases hgt'
                      rfl
                  | some tj =>
                      cases tj with
                      | varDecl nmj initj =>
                          by_cases hfv : isFunctionValued initj = true
                          · simp only [visitTopAt, hg, hb, hgj] at hstep
                            rw [if_pos hfv] at hstep
                            cases hstep
                            have hcong : modifyAt (updateVarInit v) j m
                                = modifyAt (topFix v) j m :=
                              modifyAt_congr _ _ j m _ hgj
                                (updateVarInit_eq_topFix v nmj initj)
                            rw [hcong]
                            refine ⟨modifyAt_forall₂ v (topFix v) (topRel_topFix v) m0 m hev j,
                              procFixed_after_fix v m0 m i j _ hev hproc hgj ?_⟩
                            intro t' hgt' hne
                            rw [hg] at hgt'
                            cases hgt'
                            rfl
                          · simp only [visitTopAt, hg, hb, hgj] at hstep
                            rw [if_neg hfv] at hstep
                            cases hstep
                            refine ⟨hev, procFixed_noop v m i hproc ?_⟩
                            intro t' hgt'
                            rw [hg] at hgt'
                            cases hgt'
                            rfl
                      | exportDefaultFun bodyj =>
                          simp only [visitTopAt, hg, hb, hgj] at hstep
                          cases hstep
                          refine ⟨hev, procFixed_noop v m i hproc ?_⟩
                          intro t' hgt'
                          rw [hg] at hgt'
                          cases hgt'
                          rfl
                      | exportDefaultExpr ej =>
                          simp only [visitTopAt, hg, hb, hgj] at hstep
                          cases hstep
                          refine ⟨hev, procFixed_noop v m i hproc ?_⟩
                          intro t' hgt'
                          rw [hg] at hgt'
                          cases hgt'
                          rfl
                      | otherTop =>
                          simp only [visitTopAt, hg, hb, hgj] at hstep
                          cases hstep
                          refine ⟨hev, procFixed_noop v m i hproc ?_⟩
                          intro t' hgt'
                          rw [hg] at hgt'
                          cases hgt'
                          rfl
          | jsxElement attrs children =>
              simp only [visitTopAt, hg] at hstep
              cases hstep
              refine ⟨hev, procFixed_noop v m i hproc ?_⟩
              intro t' hgt'
              rw [hg] at hgt'
              cases hgt'
              rfl
          | jsxFragment children =>
              simp only [visitTopAt, hg] at hstep
              cases hstep
              refine ⟨hev, procFixed_noop v m i hproc ?_⟩
              intro t' hgt'
              rw [hg] at hgt'
              cases hgt'
              rfl
          | funExpr body =>
              simp only [visitTopAt, hg] at hstep
              cases hstep
              refine ⟨hev, procFixed_noop v m i hproc ?_⟩
              intro t' hgt'
              rw [hg] at hgt'
              cases hgt'
              rfl
          | otherExpr subs =>
              simp only [visitTopAt, hg] at hstep
              cases hstep
              refine ⟨hev, procFixed_noop v m i hproc ?_⟩
              intro t' hgt'
              rw [hg] at hgt'
              cases hgt'
              rfl
      | otherTop =>
          simp only [visitTopAt, hg] at hstep
          cases hstep
          refine ⟨hev, procFixed_noop v m i hproc ?_⟩
          intro t' hgt'
          rw [hg] at hgt'
          cases hgt'
          rfl

theorem runFrom_master (v : String) (m0 : JModule) :
    ∀ (fuel : Nat) (m : JModule) (i : Nat) (mods : Bool),
      m0.length ≤ fuel + i → Evolves v m0 m → ProcFixed v m i →
      Evolves v m0 (runVisitorsFrom v fuel m i mods).1 ∧
      ProcFixed v (runVisitorsFrom v fuel m i mods).1
        ((runVisitorsFrom v fuel m i mods).1).length ∧
      (runVisitorsFrom v fuel m i mods).2 = (mods || anyFiredFrom v m0 fuel i) := by
  intro fuel
  induction fuel with
  | zero =>
      intro m i mods hlen hev hproc
      simp only [runVisitorsFrom, anyFiredFrom, Bool.or_false]
      refine ⟨hev, ?_, by trivial⟩
      intro j t hj hgj hfc
      have hjl := get_some_lt m j t hgj
      have hlm : m.length = m0.length := evolves_length v m0 m hev
      exact hproc j t (by omega) hgj hfc
  | succ fuel ih =>
      intro m i mods hlen hev hproc
      by_cases hi : i < m.length
      · rcases hstep : visitTopAt v m i with ⟨mm, fired⟩
        have hrun : runVisitorsFrom v (fuel + 1) m i mods
            = runVisitorsFrom v fuel mm (i + 1) (mods || fired) := by
          simp only [runVisitorsFrom]
          rw [if_pos hi, hstep]
        obtain ⟨hev1, hproc1⟩ := visitTopAt_step v m0 m i mm fired hev hproc hstep
        obtain ⟨he2, hp2, hf2⟩ := ih mm (i + 1) (mods || fired) (by omega) hev1 hproc1
        rw [hrun]
        refine ⟨he2, hp2, ?_⟩
        rw [hf2]
        have hfired : fired = (visitTopAt v m0 i).2 := by
          rw [← firedAt_evolves v m0 m hev i, hstep]
        have hi0 : i < m0.length := by
          rw [← evolves_length v m0 m hev]
          exact hi
        have hany : anyFiredFrom v m0 (fuel + 1) i
            = ((visitTopAt v m0 i).2 || anyFiredFrom v m0 fuel (i + 1)) := by
          simp only [anyFiredFrom]
          rw [if_pos hi0]
        rw [hany, ← hfired, Bool.or_assoc]
      · have hrun : runVisitorsFrom v (fuel + 1) m i mods = (m, mods) := by
          simp only [runVisitorsFrom]
          rw [if_neg hi]
        have hi0 : ¬ i < m0.length := by
          rw [← evolves_length v m0 m hev]
          exact hi
        have hany : anyFiredFrom v m0 (fuel + 1) i = false := by
          simp only [anyFiredFrom]
          rw [if_neg hi0]
        rw [hrun, hany, Bool.or_false]
        refine ⟨hev, ?_, rfl⟩
        intro j t hj hgj hfc
        have hjl := get_some_lt m j t hgj
        exact hproc j t (by omega) hgj hfc

end NbVite

namespace NbVite

theorem stable_of_fixed (v : String) (m : JModule)
    (hfix : ProcFixed v m m.length) : ∀ i, (visitTopAt v m i).1 = m := by
  intro i
  cases hg : m.get? i with
  | none => simp only [visitTopAt, hg]
  | some t =>
      have hil := get_some_lt m i t hg
      cases t with
      | varDecl nm init =>
          by_cases hc : (isFunctionValued init && referencedInExportDefault m nm) = true
          · have hfx : topFix v (.varDecl nm init) = .varDecl nm init :=
              hfix i _ hil hg (by simp only [fireCond]; exact hc)
            simp only [visitTopAt, hg]
            rw [if_pos hc]
            exact modifyAt_id (updateVarInit v) i m _ hg
              ((updateVarInit_eq_topFix v nm init).trans hfx)
          · simp only [visitTopAt, hg]
            rw [if_neg hc]
      | exportDefaultFun body =>
          have hfx : topFix v (.exportDefaultFun body) = .exportDefaultFun body :=
            hfix i _ hil hg rfl
          simp only [visitTopAt, hg]
          exact modifyAt_id _ i m _ hg hfx
      | exportDefaultExpr e =>
          cases e with
          | arrowExpr b =>
              have hfx : topFix v (.exportDefaultExpr (.arrowExpr b))
                  = .exportDefaultExpr (.arrowExpr b) := hfix i _ hil hg rfl
              by_cases hel : isJsxElementB b = true
              · simp only [visitTopAt, hg]
                rw [if_pos hel]
                have hX : TopLevel.exportDefaultExpr (.arrowExpr (addAttributeToJSXElement v b))
                    = topFix v (.exportDefaultExpr (.arrowExpr b)) := by
                  simp [topFix, hel]
                exact modifyAt_id _ i m _ hg (hX.trans hfx)
              · simp only [visitTopAt, hg]
                rw [if_neg hel]
                have hX : TopLevel.exportDefaultExpr (transformFunctionBody v (.arrowExpr b))
                    = topFix v (.exportDefaultExpr (.arrowExpr b)) := by
                  simp [topFix, hel]
                exact modifyAt_id _ i m _ hg (hX.trans hfx)
          | arrowBlock ss =>
              have hfx : topFix v (.exportDefaultExpr (.arrowBlock ss))
                  = .exportDefaultExpr (.arrowBlock ss) := hfix i _ hil hg rfl
              simp only [visitTopAt, hg]
              exact modifyAt_id _ i m _ hg hfx
          | identRef n =>
              cases hb : findBindingIdx m n with
              | none => simp only [visitTopAt, hg, hb]
              | some j =>
                  cases hgj : m.get? j with
                  | none => simp only [visitTopAt, hg, hb, hgj]
                  | some tj =>
                      cases tj with
                      | varDecl nmj initj =>
                          by_cases hfv : isFunctionValued initj = true
                          · obtain ⟨init', hgj'⟩ := findBindingIdx_spec n m j hb
                            rw [hgj] at hgj'
                            simp only [Option.some.injEq, TopLevel.varDecl.injEq] at hgj'
                            obtain ⟨hn1, hn2⟩ := hgj'
                            have href : referencedInExportDefault m n = true :=
                              refExport_of_get m i (.identRef n) n hg (by simp [exprMentions])
                            have hfcj : fireCond m (.varDecl nmj initj) = true := by
                              simp [fireCond, hfv, hn1, href]
                            have hjl := get_some_lt m j _ hgj
                            have hfx : topFix v (.varDecl nmj initj) = .varDecl nmj initj :=
                              hfix j _ hjl hgj hfcj
                            simp only [visitTopAt, hg, hb, hgj]
                            rw [if_pos hfv]
                            exact modifyAt_id (updateVarInit v) j m _ hgj
                              ((updateVarInit_eq_topFix v nmj initj).trans hfx)
                          · simp only [visitTopAt, hg, hb, hgj]
                            rw [if_neg hfv]
                      | exportDefaultFun bodyj => simp only [visitTopAt, hg, hb, hgj]
                      | exportDefaultExpr ej => simp only [visitTopAt, hg, hb, hgj]
                      | otherTop => simp only [visitTopAt, hg, hb, hgj]
          | jsxElement attrs children => simp only [visitTopAt, hg]
          | jsxFragment children => simp only [visitTopAt, hg]
          | funExpr body => simp only [visitTopAt, hg]
          | otherExpr subs => simp only [visitTopAt, hg]
      | otherTop => simp only [visitTopAt, hg]

theorem runFrom_stable (v : String) (m : JModule)
    (hst : ∀ i, (visitTopAt v m i).1 = m) :
    ∀ (fuel i : Nat) (mods : Bool), (runVisitorsFrom v fuel m i mods).1 = m := by
  intro fuel
  induction fuel with
  | zero => intro i mods; rfl
  | succ fuel ih =>
      intro i mods
      by_cases hi : i < m.length
      · rcases hstep : visitTopAt v m i with ⟨mm, fired⟩
        have hmm : mm = m := by rw [← hst i, hstep]
        subst hmm
        have hrun : runVisitorsFrom v (fuel + 1) mm i mods
            = runVisitorsFrom v fuel mm (i + 1) (mods || fired) := by
          simp only [runVisitorsFrom]
          rw [if_pos hi, hstep]
        rw [hrun]
        exact ih (i + 1) (mods || fired)
      · simp only [runVisitorsFrom]
        rw [if_neg hi]

theorem transformModule_idem (v : String) (m m1 : JModule)
    (h : transformModule v m = some m1) : transformModule v m1 = some m1 := by
  rcases hp : runVisitorPass v m with ⟨mr, fl⟩
  cases fl with
  | false =>
      simp only [transformModule, hp] at h
      exact Option.noConfusion h
  | true =>
      simp only [transformModule, hp] at h
      injection h with hm1
      subst hm1
      have hp' : runVisitorsFrom v m.length m 0 false = (mr, true) := by
        rw [← hp]
        rfl
      obtain ⟨hev, hproc, hflag⟩ := runFrom_master v m m.length m 0 false (by omega)
        (evolves_refl v m) (fun j t hj _ _ => absurd hj (Nat.not_lt_zero j))
      rw [hp'] at hev hproc hflag
      have hev' : Evolves v m mr := hev
      have hproc' : ProcFixed v mr mr.length := hproc
      have hany : anyFiredFrom v m m.length 0 = true := by
        simpa using hflag.symm
      have hst := stable_of_fixed v mr hproc'
      have hlen : mr.length = m.length := evolves_length v m mr hev'
      have hfst : (runVisitorsFrom v mr.length mr 0 false).1 = mr :=
        runFrom_stable v mr hst mr.length 0 false
      obtain ⟨_, _, hflag2⟩ := runFrom_master v mr mr.length mr 0 false (by omega)
        (evolves_refl v mr) (fun j t hj _ _ => absurd hj (Nat.not_lt_zero j))
      have hany2 : anyFiredFrom v mr mr.length 0 = true := by
        rw [anyFiredFrom_evolves v m mr hev' mr.length 0, hlen]
        exact hany
      rw [hany2, Bool.false_or] at hflag2
      rcases hp2 : runVisitorsFrom v mr.length mr 0 false with ⟨m2, fl2⟩
      have h1 : m2 = mr := by rw [← hfst, hp2]
      have h2 : fl2 = true := by rw [← hflag2, hp2]
      subst h1
      subst h2
      have hp2' : runVisitorPass v m2 = (m2, true) := hp2
      simp only [transformModule, hp2']

theorem transformReactComponent_idem (cp : String) (m m1 : JModule)
    (h : transformReactComponent cp (.ok m) = some m1) :
    transformReactComponent cp (.ok m1) = some m1 := by
  simp only [transformReactComponent] at h ⊢
  exact transformModule_idem _ m m1 h

end NbVite

namespace NbVite

/-- A one-component module before annotation: `export default () => <div/>`. -/
def sampleFreshModule : JModule :=
  [ .exportDefaultExpr (.arrowExpr (.jsxElement [] .nil)) ]

/-- The same module after the annotator has run. -/
def sampleAnnotatedModule : JModule :=
  [ .exportDefaultExpr (.arrowExpr (.jsxElement [.named dataAttrName "p"] .nil)) ]

/-- A minimal Vue single-file component source. -/
def sampleVueCode : List Char := "<template><div></div></template>".data

/-- Its annotated output. -/
def sampleVueOut : List Char :=
  "<template>\n<div data-nb-component=\"p\"></div>\n</template>".data

/--
**C5**: the annotator transform is idempotent on both component paths.
For the function-component path, a module the transform has produced is
a fixpoint: a second run adds no second `data-nb-component` attribute
anywhere and returns the module unchanged (same regenerated output, so
no diff).  For the template-component path, a second run on the
transform's output finds the attribute already on the template's root
element and returns the no-transformation result (`null`), so no second
attribute and no diff.
-/
theorem annotator_idempotent (componentPath : String) :
    (∀ (m m1 : JModule), transformReactComponent componentPath (.ok m) = some m1 →
        transformReactComponent componentPath (.ok m1) = some m1) ∧
    (∀ (code out : List Char), transformVueComponent code componentPath.data = some out →
        transformVueComponent out componentPath.data = none) :=
  ⟨fun m m1 h => transformReactComponent_idem componentPath m m1 h,
   fun code out h => transformVue_second_pass_none code componentPath.data out h⟩

/-- The idempotence theorem at a concrete component: the fresh module's
annotation is a fixpoint of the second pass, and the annotated Vue
source is rejected by the second pass. -/
theorem annotator_idempotent_witness :
    (transformReactComponent "p" (.ok sampleFreshModule) = some sampleAnnotatedModule ∧
     transformReactComponent "p" (.ok sampleAnnotatedModule) = some sampleAnnotatedModule) ∧
    (transformVueComponent sampleVueCode "p".data = some sampleVueOut ∧
     transformVueComponent sampleVueOut "p".data = none) :=
  ⟨⟨rfl, (annotator_idempotent "p").1 sampleFreshModule sampleAnnotatedModule rfl⟩,
   ⟨rfl, (annotator_idempotent "p").2 sampleVueCode sampleVueOut rfl⟩⟩

end NbVite

namespace NbVite

theorem anyFiredFrom_of_fired (v : String) (m : JModule) :
    ∀ (fuel j i : Nat), j ≤ i → i < j + fuel → i < m.length →
      (visitTopAt v m i).2 = true → anyFiredFrom v m fuel j = true := by
  intro fuel
  induction fuel with
  | zero =>
      intro j i h1 h2 _ _
      exact absurd h2 (by omega)
  | succ fuel ih =>
      intro j i h1 h2 h3 h4
      have hj : j < m.length := by omega
      simp only [anyFiredFrom]
      rw [if_pos hj]
      by_cases hji : j = i
      · subst hji
        rw [h4, Bool.true_or]
      · rw [ih (j + 1) i (by omega) (by omega) h3 h4, Bool.or_true]

/--
**C3** (amended): for every module whose default-exported function
declaration has a body whose traversal stops at a first-found return
of a markup fragment, the visitor adds no attribute to that function —
its body comes back unchanged, and the module visit at the export is
the identity on the tree.  But the visitor still sets
`hasModifications` (the `true` flag), so the transform returns a
regenerated (non-null) result object rather than the no-transformation
result; and only the fragment-returning function itself is protected —
a function-valued helper referenced from the export default is still
annotated by the `VariableDeclarator` visitor elsewhere in the module.
-/
theorem fragment_skip_keeps_tree (value : String) (m : JModule) (i : Nat)
    (body body' : JStmtList)
    (hg : m.get? i = some (.exportDefaultFun body))
    (h : visitStmtList value body = (body', some .fragmentSkip)) :
    body' = body ∧
    visitTopAt value m i = (m, true) ∧
    ∃ m', transformModule value m = some m' := by
  have hb : body' = body :=
    visitStmtList_no_attr value body body' (some .fragmentSkip) h (by simp)
  rw [hb] at h
  have hrepl : (fun (_ : TopLevel) => TopLevel.exportDefaultFun (visitStmtList value body).1)
      (TopLevel.exportDefaultFun body) = TopLevel.exportDefaultFun body := by
    rw [h]
  have hmod : modifyAt (fun _ => TopLevel.exportDefaultFun (visitStmtList value body).1) i m
      = m := modifyAt_id _ i m _ hg hrepl
  refine ⟨hb, ?_, ?_⟩
  · simp only [visitTopAt, hg]
    rw [hmod]
  · have hi := get_some_lt m i _ hg
    have hfired := visitTopAt_snd_fun value m i body hg
    have hany : anyFiredFrom value m m.length 0 = true :=
      anyFiredFrom_of_fired value m m.length 0 i (Nat.zero_le i) (by omega) hi hfired
    obtain ⟨_, _, hflag⟩ := runFrom_master value m m.length m 0 false (by omega)
      (evolves_refl value m) (fun j t hj _ _ => absurd hj (Nat.not_lt_zero j))
    rw [hany, Bool.false_or] at hflag
    rcases hp : runVisitorsFrom value m.length m 0 false with ⟨mr, fl⟩
    have hfl : fl = true := by rw [← hflag, hp]
    subst hfl
    have hp' : runVisitorPass value m = (mr, true) := hp
    exact ⟨mr, by simp [transformModule, hp']⟩

/-- Witness for C3's amended theorem at the helper-sharing module: the
fragment-returning export's visit is the identity with the flag set,
and the whole transform still returns a result object. -/
theorem fragment_skip_keeps_tree_witness :
    (JStmtList.cons (.ret (some (.jsxFragment (.cons (.identRef "H") .nil)))) .nil)
      = (JStmtList.cons (.ret (some (.jsxFragment (.cons (.identRef "H") .nil)))) .nil) ∧
    visitTopAt "js/pages/Frag.tsx" helperFragmentModule 1 = (helperFragmentModule, true) ∧
    ∃ m', transformModule "js/pages/Frag.tsx" helperFragmentModule = some m' :=
  fragment_skip_keeps_tree "js/pages/Frag.tsx" helperFragmentModule 1
    (.cons (.ret (some (.jsxFragment (.cons (.identRef "H") .nil)))) .nil)
    (.cons (.ret (some (.jsxFragment (.cons (.identRef "H") .nil)))) .nil) rfl rfl

end NbVite
